import Mathlib

/-
Verification of the axolotl bytecode compiler and virtual machine
(SpintroniK/axolotl, C++ sources under src/).

The development is a shallow embedding of the pipeline
scanner → single-pass Pratt compiler → Chunk → stack VM.

Modelling conventions:
* Machine bytes are `Nat` values; every store into a `Chunk` applies `% 256`,
  mirroring the `static_cast<std::byte>` in `Chunk::write` / `Chunk::set`.
* `Number` (C++ `double`) is modelled as `ℚ`.  Every numeric literal and
  arithmetic operation exercised by the verified programs is exact in
  binary64, so the rational model agrees with the C++ semantics there.
* Out-of-bounds vector/array accesses, uncaught C++ exceptions
  (`std::bad_variant_access`, the `throw std::runtime_error` in
  `Vm::binary_op`) and out-of-bounds stack writes are modelled as a
  distinct `crash` outcome, separate from `InterpretResult::RuntimeError`.
* Loops are driven by explicit fuel; exhausted fuel returns the state
  unchanged (compiler) or a `timeout` outcome (VM).  All verified runs use
  enough fuel, and the universally quantified theorems hold for every fuel.
-/

/-! ## Scanner (class `Scanner`, second translation unit concatenated into
src/include/Debug.hpp; referred to as Scanner.hpp by the includes) -/

inductive TokenType where
  | LEFT_PAREN | RIGHT_PAREN | LEFT_BRACE | RIGHT_BRACE | COMMA | DOT
  | MINUS | PLUS | SEMICOLON | SLASH | STAR
  | BANG | BANG_EQUAL | EQUAL | EQUAL_EQUAL
  | GREATER | GREATER_EQUAL | LESS | LESS_EQUAL
  | IDENTIFIER | STRING | NUMBER
  | AND | CLASS | ELSE | FALSE | FOR | FUN | IF | NIL | OR | PRINT | RETURN
  | SUPER | THIS | TRUE | VAR | WHILE
  | ERROR | Eof
  deriving DecidableEq, Repr

/-- `static_cast<std::size_t>(type)`: the ordinal used to index the parse
rule table. -/
def TokenType.toIdx : TokenType → Nat
  | .LEFT_PAREN => 0 | .RIGHT_PAREN => 1 | .LEFT_BRACE => 2 | .RIGHT_BRACE => 3
  | .COMMA => 4 | .DOT => 5 | .MINUS => 6 | .PLUS => 7 | .SEMICOLON => 8
  | .SLASH => 9 | .STAR => 10 | .BANG => 11 | .BANG_EQUAL => 12 | .EQUAL => 13
  | .EQUAL_EQUAL => 14 | .GREATER => 15 | .GREATER_EQUAL => 16 | .LESS => 17
  | .LESS_EQUAL => 18 | .IDENTIFIER => 19 | .STRING => 20 | .NUMBER => 21
  | .AND => 22 | .CLASS => 23 | .ELSE => 24 | .FALSE => 25 | .FOR => 26
  | .FUN => 27 | .IF => 28 | .NIL => 29 | .OR => 30 | .PRINT => 31
  | .RETURN => 32 | .SUPER => 33 | .THIS => 34 | .TRUE => 35 | .VAR => 36
  | .WHILE => 37 | .ERROR => 38 | .Eof => 39

/-- `class Token`; the lexeme view is materialised as a `String`
(field name `lexme` kept from the source). -/
structure Token where
  type : TokenType
  lexme : String := ""
  line : Nat := 0
  deriving DecidableEq, Repr

instance : Inhabited Token := ⟨⟨.Eof, "", 0⟩⟩

/-- Scanner state: `source`, `start`, `current`, `line` (line starts at 0 in
the source). -/
structure ScanSt where
  source : List Char
  start : Nat := 0
  current : Nat := 0
  line : Nat := 0
  deriving Repr

/-- `source[i]`: a `string_view` built from a null-terminated literal, so
reading one past the end yields the NUL sentinel.  Reads further out of
bounds never happen with in-range `current`; the sentinel is a faithful
model of `is_at_end`. -/
def charAt (s : List Char) (i : Nat) : Char := s.getD i (Char.ofNat 0)

def ScanSt.isAtEnd (sc : ScanSt) : Bool := charAt sc.source sc.current = Char.ofNat 0

def ScanSt.peekC (sc : ScanSt) : Char := charAt sc.source sc.current

def ScanSt.peekNextC (sc : ScanSt) : Char :=
  if sc.isAtEnd then Char.ofNat 0 else charAt sc.source (sc.current + 1)

/-- `advance()`: return `source[current++]`. -/
def ScanSt.adv (sc : ScanSt) : Char × ScanSt :=
  (charAt sc.source sc.current, { sc with current := sc.current + 1 })

/-- `match(expected)`. -/
def ScanSt.matchCh (sc : ScanSt) (expected : Char) : Bool × ScanSt :=
  if sc.isAtEnd then (false, sc)
  else if charAt sc.source sc.current ≠ expected then (false, sc)
  else (true, { sc with current := sc.current + 1 })

def isAlphaCh (c : Char) : Bool :=
  (Char.ofNat 97 ≤ c ∧ c ≤ Char.ofNat 122) ∨ (Char.ofNat 65 ≤ c ∧ c ≤ Char.ofNat 90) ∨ c = Char.ofNat 95

/-- `std::isdigit` on the characters the scanner feeds it. -/
def isDigitCh (c : Char) : Bool := Char.ofNat 48 ≤ c ∧ c ≤ Char.ofNat 57

/-- The `// ...` comment loop inside `skip_white_space`. -/
def skipCommentAux : Nat → ScanSt → ScanSt
  | 0, sc => sc
  | fuel + 1, sc =>
      if sc.peekC ≠ Char.ofNat 10 ∧ ¬sc.isAtEnd then
        skipCommentAux fuel (sc.adv).2
      else sc

def skipWsAux : Nat → ScanSt → ScanSt
  | 0, sc => sc
  | fuel + 1, sc =>
      let c := sc.peekC
      if c = Char.ofNat 32 ∨ c = Char.ofNat 13 ∨ c = Char.ofNat 9 then
        skipWsAux fuel (sc.adv).2
      else if c = Char.ofNat 10 then
        skipWsAux fuel ({ sc with line := sc.line + 1 }.adv).2
      else if c = Char.ofNat 47 then
        if sc.peekNextC = Char.ofNat 47 then
          skipWsAux fuel (skipCommentAux (sc.source.length + 2) sc)
        else sc
      else sc

def ScanSt.skipWhiteSpace (sc : ScanSt) : ScanSt :=
  skipWsAux (sc.source.length + 2) sc

/-- `make_token(type)`: the lexeme is the slice `[start, current)`. -/
def ScanSt.makeToken (sc : ScanSt) (t : TokenType) : Token :=
  ⟨t, String.mk ((sc.source.drop sc.start).take (sc.current - sc.start)), sc.line⟩

def ScanSt.errorToken (sc : ScanSt) (message : String) : Token :=
  ⟨.ERROR, message, sc.line⟩

/-- `check_keyword`: the source returns `type` in both branches of the `if`,
so the comparison against the expected keyword tail is dead code.  Embedded
verbatim. -/
def checkKeyword (sc : ScanSt) (beg : Nat) (rest : String) (t : TokenType) : TokenType :=
  let expected := String.mk ((sc.source.drop (sc.start + beg)).take rest.length)
  if sc.current - sc.start = sc.start + rest.length ∧ rest = expected then t
  else t

def identifierType (sc : ScanSt) : TokenType :=
  match charAt sc.source sc.start with
  | 'a' => checkKeyword sc 1 "nd" .AND
  | 'c' => checkKeyword sc 1 "lass" .CLASS
  | 'e' => checkKeyword sc 1 "lse" .ELSE
  | 'f' =>
      if sc.current - sc.start > 1 then
        match charAt sc.source (sc.start + 1) with
        | 'a' => checkKeyword sc 2 "lse" .FALSE
        | 'o' => checkKeyword sc 2 "r" .FOR
        | 'u' => checkKeyword sc 2 "n" .FUN
        | _ => .IDENTIFIER
      else .IDENTIFIER
  | 'i' => checkKeyword sc 1 "f" .IF
  | 'n' => checkKeyword sc 1 "il" .NIL
  | 'o' => checkKeyword sc 1 "r" .OR
  | 'p' => checkKeyword sc 1 "rint" .PRINT
  | 'r' => checkKeyword sc 1 "eturn" .RETURN
  | 's' => checkKeyword sc 1 "uper" .SUPER
  | 't' =>
      if sc.current - sc.start > 1 then
        match charAt sc.source (sc.start + 1) with
        | 'h' => checkKeyword sc 2 "is" .THIS
        | 'r' => checkKeyword sc 2 "ue" .TRUE
        | _ => .IDENTIFIER
      else .IDENTIFIER
  | 'v' => checkKeyword sc 1 "ar" .VAR
  | 'w' => checkKeyword sc 1 "hile" .WHILE
  | _ => .IDENTIFIER

def identAux : Nat → ScanSt → ScanSt
  | 0, sc => sc
  | fuel + 1, sc =>
      if isAlphaCh sc.peekC ∨ isDigitCh sc.peekC then identAux fuel (sc.adv).2
      else sc

def scanIdentifier (sc : ScanSt) : Token × ScanSt :=
  let sc := identAux (sc.source.length + 2) sc
  (sc.makeToken (identifierType sc), sc)

def digitsAux : Nat → ScanSt → ScanSt
  | 0, sc => sc
  | fuel + 1, sc =>
      if isDigitCh sc.peekC then digitsAux fuel (sc.adv).2 else sc

def scanNumber (sc : ScanSt) : Token × ScanSt :=
  let sc := digitsAux (sc.source.length + 2) sc
  let sc :=
    if sc.peekC = '.' ∧ isDigitCh sc.peekNextC then (sc.adv).2 else sc
  let sc := digitsAux (sc.source.length + 2) sc
  (sc.makeToken .NUMBER, sc)

def stringAux : Nat → ScanSt → ScanSt
  | 0, sc => sc
  | fuel + 1, sc =>
      if sc.peekC ≠ '"' ∧ ¬sc.isAtEnd then
        let sc := if sc.peekC = Char.ofNat 10 then { sc with line := sc.line + 1 } else sc
        stringAux fuel (sc.adv).2
      else sc

def scanString (sc : ScanSt) : Token × ScanSt :=
  let sc := stringAux (sc.source.length + 2) sc
  if sc.isAtEnd then (sc.errorToken "Unterminated string.", sc)
  else
    let sc := (sc.adv).2
    (sc.makeToken .STRING, sc)

/-- `Scanner::scan_token`. -/
def scanToken (sc0 : ScanSt) : Token × ScanSt :=
  let sc := sc0.skipWhiteSpace
  let sc := { sc with start := sc.current }
  if sc.isAtEnd then (⟨.Eof, "", 0⟩, sc)
  else
    let (c, sc) := sc.adv
    if isAlphaCh c then scanIdentifier sc
    else if isDigitCh c then scanNumber sc
    else
      match c with
      | '(' => (sc.makeToken .LEFT_PAREN, sc)
      | ')' => (sc.makeToken .RIGHT_PAREN, sc)
      | '{' => (sc.makeToken .LEFT_BRACE, sc)
      | '}' => (sc.makeToken .RIGHT_BRACE, sc)
      | ';' => (sc.makeToken .SEMICOLON, sc)
      | ',' => (sc.makeToken .COMMA, sc)
      | '.' => (sc.makeToken .DOT, sc)
      | '-' => (sc.makeToken .MINUS, sc)
      | '+' => (sc.makeToken .PLUS, sc)
      | '/' => (sc.makeToken .SLASH, sc)
      | '*' => (sc.makeToken .STAR, sc)
      | '!' =>
          let (m, sc) := sc.matchCh '='
          (sc.makeToken (if m then .BANG_EQUAL else .BANG), sc)
      | '=' =>
          let (m, sc) := sc.matchCh '='
          (sc.makeToken (if m then .EQUAL_EQUAL else .EQUAL), sc)
      | '<' =>
          let (m, sc) := sc.matchCh '='
          (sc.makeToken (if m then .LESS_EQUAL else .LESS), sc)
      | '>' =>
          let (m, sc) := sc.matchCh '='
          (sc.makeToken (if m then .GREATER_EQUAL else .GREATER), sc)
      | '"' => scanString sc
      | _ => (sc.errorToken "Unexpected character.", sc)

/-! ## Values (src/include/Value.hpp, src/src/Value.cpp)

`Value = std::variant<Boolean, Number, String, Function>` — there is no nil
alternative.  `Function::operator==` compares names only and nothing in the
VM reads a Function's arity or chunk, so a Function is modelled by its name. -/

inductive Value where
  | VBool (b : Bool)
  | VNum (q : ℚ)
  | VStr (s : String)
  | VFun (name : String)
  deriving DecidableEq, Repr

instance : Inhabited Value := ⟨.VBool false⟩

/-! ## Chunk (src/include/Chunk.hpp) -/

def opConstant : Nat := 0
def opNil : Nat := 1
def opTrue : Nat := 2
def opFalse : Nat := 3
def opPop : Nat := 4
def opGetLocal : Nat := 5
def opSetlocal : Nat := 6
def opGetGlobal : Nat := 7
def opDefineGlobal : Nat := 8
def opSetGlobal : Nat := 9
def opEqual : Nat := 10
def opGreater : Nat := 11
def opLess : Nat := 12
def opAdd : Nat := 13
def opSubtract : Nat := 14
def opMutliply : Nat := 15
def opDivide : Nat := 16
def opNot : Nat := 17
def opNegate : Nat := 18
def opPrint : Nat := 19
def opJump : Nat := 20
def opJumpIfFalse : Nat := 21
def opLoop : Nat := 22
def opReturn : Nat := 23

structure Chunk where
  data : List Nat
  constants : List Value
  lines : List Nat
  deriving DecidableEq, Repr

/-- `Chunk::write(byte, line)`; the template cast to `std::byte` reduces the
value mod 256. -/
def Chunk.write (ch : Chunk) (byte line : Nat) : Chunk :=
  { ch with data := ch.data ++ [byte % 256], lines := ch.lines ++ [line] }

/-- `Chunk::add_constant`: append, return the new entry's index. -/
def Chunk.addConstant (ch : Chunk) (value : Value) : Chunk × Nat :=
  ({ ch with constants := ch.constants ++ [value] }, ch.constants.length)

/-- `Chunk::set(index, value)` (byte patching). -/
def Chunk.setByte (ch : Chunk) (index byte : Nat) : Chunk :=
  { ch with data := ch.data.set index (byte % 256) }

def Chunk.size (ch : Chunk) : Nat := ch.data.length

/-! ## Compiler state (src/include/Compiler.hpp) -/

/-- Precedence, by underlying `std::uint8_t` value. -/
def precNONE : Nat := 0
def precASSIGNMENT : Nat := 1
def precOR : Nat := 2
def precAND : Nat := 3
def precEQUALITY : Nat := 4
def precCOMPARISON : Nat := 5
def precTERM : Nat := 6
def precFACTOR : Nat := 7
def precUNARY : Nat := 8
def precCALL : Nat := 9
def precPRIMARY : Nat := 10

structure Local where
  token : Token := ⟨.Eof, "", 0⟩
  depth : Int := -1
  deriving Repr

instance : Inhabited Local := ⟨{}⟩

structure CompilerState where
  locals : List Local := List.replicate 256 {}
  localCount : Nat := 0
  scopeDepth : Nat := 0
  deriving Repr

def CompilerState.beginScope (cs : CompilerState) : CompilerState :=
  { cs with scopeDepth := cs.scopeDepth + 1 }

/-- `scope_depth--` (a `std::size_t`; the compiler only ever calls it with a
positive depth, paired with `begin_scope`). -/
def CompilerState.endScope (cs : CompilerState) : CompilerState :=
  { cs with scopeDepth := cs.scopeDepth - 1 }

/-- `add_local`: refuses the 256th local, else appends with depth −1. -/
def CompilerState.addLocal (cs : CompilerState) (token : Token) : CompilerState × Bool :=
  if cs.localCount = cs.locals.length - 1 then (cs, false)
  else ({ cs with locals := cs.locals.set cs.localCount ⟨token, -1⟩,
                  localCount := cs.localCount + 1 }, true)

/-- The descending search loop in `CompilerState::find`; `i` is one past the
index considered next. -/
def CompilerState.findLoop (cs : CompilerState) (token : Token) : Nat → Int
  | 0 => -1
  | i + 1 =>
      let l := cs.locals.getD i default
      if l.depth ≠ -1 ∧ l.depth < (cs.scopeDepth : Int) then -1
      else if token.lexme = l.token.lexme then
        if l.depth = -1 then -2 else (i : Int)
      else cs.findLoop token i

def CompilerState.find (cs : CompilerState) (token : Token) : Int :=
  if cs.localCount = 0 then -1 else cs.findLoop token cs.localCount

def CompilerState.setLocalDepth (cs : CompilerState) (index : Nat) (depth : Int) : CompilerState :=
  { cs with locals := cs.locals.set index { (cs.locals.getD index default) with depth := depth } }

def CompilerState.getLocalCount (cs : CompilerState) : Nat := cs.localCount

structure Parser where
  previous : Token := ⟨.Eof, "", 0⟩
  current : Token := ⟨.Eof, "", 0⟩
  hadError : Bool := false
  panicMode : Bool := false
  deriving Repr

/-- The full compiler state (`class Compiler`'s members). -/
structure C where
  parser : Parser
  scanner : ScanSt
  chunk : Chunk
  cstate : CompilerState
  deriving Repr

/-! ### Parser primitives -/

/-- `error_at`: writes a diagnostic to stdout (not modelled) and sets the
flags; suppressed while in panic mode. -/
def errorAt (_token : Token) (_message : String) (st : C) : C :=
  if st.parser.panicMode then st
  else { st with parser := { st.parser with panicMode := true, hadError := true } }

/-- `error(message)` reports at `parser.previous`. -/
def errorC (message : String) (st : C) : C := errorAt st.parser.previous message st

/-- `error_at_current` also reports at `parser.previous` in this source. -/
def errorAtCurrent (message : String) (st : C) : C := errorAt st.parser.previous message st

/-- The token-pulling loop of `advance()`: keep scanning while the scanner
hands back ERROR tokens. -/
def advanceLoop : Nat → C → C
  | 0, st => st
  | fuel + 1, st =>
      let (tok, sc) := scanToken st.scanner
      let st := { st with scanner := sc, parser := { st.parser with current := tok } }
      if tok.type = .ERROR then advanceLoop fuel (errorAtCurrent tok.lexme st)
      else st

def advanceC (st : C) : C :=
  let st := { st with parser := { st.parser with previous := st.parser.current } }
  advanceLoop (st.scanner.source.length + 2) st

def checkC (t : TokenType) (st : C) : Bool := st.parser.current.type = t

def matchC (t : TokenType) (st : C) : Bool × C :=
  if checkC t st then (true, advanceC st) else (false, st)

def consume (t : TokenType) (message : String) (st : C) : C :=
  if st.parser.current.type = t then advanceC st
  else errorAtCurrent message st

/-! ### Emitter primitives -/

def emitByte (byte : Nat) (st : C) : C :=
  { st with chunk := st.chunk.write byte st.parser.previous.line }

def emitBytes2 (b1 b2 : Nat) (st : C) : C := emitByte b2 (emitByte b1 st)

def emitReturn (st : C) : C := emitByte opReturn st

def makeConstant (value : Value) (st : C) : Nat × C :=
  let (ch, constant) := st.chunk.addConstant value
  let st := { st with chunk := ch }
  if constant > 255 then (0, errorC "Too many constants in one chunk." st)
  else (constant, st)

def emitConstant (value : Value) (st : C) : C :=
  let (idx, st) := makeConstant value st
  emitBytes2 opConstant idx st

def identifierConstant (token : Token) (st : C) : Nat × C :=
  makeConstant (.VStr token.lexme) st

/-- `emit_jump`: opcode plus two 0xFF placeholder bytes; returns the offset
of the first placeholder. -/
def emitJump (instruction : Nat) (st : C) : Nat × C :=
  let st := emitByte instruction st
  let st := emitByte 255 st
  let st := emitByte 255 st
  (st.chunk.size - 2, st)

def patchJump (offset : Nat) (st : C) : C :=
  let jump := st.chunk.size - offset - 2
  let st := if jump > 65535 then errorC "Too much code to jump over." st else st
  let ch := (st.chunk.setByte offset ((jump >>> 8) &&& 255)).setByte (offset + 1) (jump &&& 255)
  { st with chunk := ch }

/-- `emit_loop`: the Loop opcode is written first, then the offset is
computed from the size that already includes it. -/
def emitLoop (loopStart : Nat) (st : C) : C :=
  let st := emitByte opLoop st
  let offset := st.chunk.size - loopStart + 2
  let st := if offset > 65535 then errorC "Loop body too large." st else st
  let st := emitByte ((offset >>> 8) &&& 255) st
  emitByte (offset &&& 255) st

/-! ### Variable helpers -/

def addLocalC (token : Token) (st : C) : C :=
  let (cs, ok) := st.cstate.addLocal token
  let st := { st with cstate := cs }
  if ¬ok then errorC "Too many local variables in function." st else st

def declareVariable (st : C) : C :=
  if st.cstate.scopeDepth = 0 then st
  else
    let st := if st.cstate.find st.parser.previous ≠ -1 then
                errorC "Already a variable with this name in this scope." st
              else st
    addLocalC st.parser.previous st

def markInitialized (st : C) : C :=
  { st with cstate := st.cstate.setLocalDepth (st.cstate.getLocalCount - 1) (st.cstate.scopeDepth : Int) }

def defineVariable (global : Nat) (st : C) : C :=
  if st.cstate.scopeDepth > 0 then markInitialized st
  else emitBytes2 opDefineGlobal global st

def parseVariable (errorMessage : String) (st : C) : Nat × C :=
  let st := consume .IDENTIFIER errorMessage st
  let st := declareVariable st
  if st.cstate.scopeDepth > 0 then (0, st)
  else identifierConstant st.parser.previous st

def resolveLocal (token : Token) (st : C) : Int × C :=
  let found := st.cstate.find token
  if found = -2 then (found, errorC "Can't read local variable in its own initializer." st)
  else (found, st)

/-- `static_cast<std::byte>(int)`: two's-complement truncation. -/
def byteOfInt (i : Int) : Nat := (i % 256).toNat

/-! ### Scopes -/

def beginScopeC (st : C) : C := { st with cstate := st.cstate.beginScope }

/-- The comparison `get_depth() > scope_depth` converts the `int` depth to
`std::size_t`, so depth −1 compares greater than any scope. -/
def depthGtScope (depth : Int) (scope : Nat) : Bool :=
  if depth < 0 then true else depth > (scope : Int)

def cleanScopeLoop : Nat → C → C
  | 0, st => st
  | n + 1, st =>
      if st.cstate.localCount > 0 ∧
         depthGtScope (st.cstate.locals.getD (st.cstate.localCount - 1) default).depth
           st.cstate.scopeDepth then
        let st := emitByte opPop st
        cleanScopeLoop n { st with cstate := { st.cstate with localCount := st.cstate.localCount - 1 } }
      else st

def endScopeC (st : C) : C :=
  let st := { st with cstate := st.cstate.endScope }
  cleanScopeLoop (st.cstate.localCount + 1) st

/-! ### synchronize -/

def syncBoundary (t : TokenType) : Bool :=
  t = .CLASS ∨ t = .FUN ∨ t = .VAR ∨ t = .FOR ∨ t = .IF ∨ t = .WHILE ∨ t = .PRINT ∨ t = .RETURN

def syncLoop : Nat → C → C
  | 0, st => st
  | fuel + 1, st =>
      if st.parser.current.type = .Eof then st
      else if st.parser.previous.type = .SEMICOLON then st
      else if syncBoundary st.parser.current.type then st
      else syncLoop fuel (advanceC st)

def synchronize (st : C) : C :=
  syncLoop (st.scanner.source.length + 2) { st with parser := { st.parser with panicMode := false } }

/-! ### Parse rules

Member-function pointers become tags dispatched by `runParseFn`. -/

/- `varRef` stands for the member function `Compiler::variable` (`variable`
is reserved in Lean). -/
inductive ParseFn where
  | grouping | unary | binary | number | strLit | varRef | literal | andOp | orOp
  deriving DecidableEq, Repr

structure ParseRule where
  pre : Option ParseFn
  inf : Option ParseFn
  precedence : Nat
  deriving DecidableEq, Repr

/-- The `rules` vector, entry by entry in source order (index = token-type
ordinal). -/
def rules : List ParseRule := [
  ⟨some .grouping, none, precNONE⟩,          -- LEFT_PAREN
  ⟨none, none, precNONE⟩,                    -- RIGHT_PAREN
  ⟨none, none, precNONE⟩,                    -- LEFT_BRACE
  ⟨none, none, precNONE⟩,                    -- RIGHT_BRACE
  ⟨none, none, precNONE⟩,                    -- COMMA
  ⟨none, none, precNONE⟩,                    -- DOT
  ⟨some .unary, some .binary, precTERM⟩,     -- MINUS
  ⟨none, some .binary, precTERM⟩,            -- PLUS
  ⟨none, none, precNONE⟩,                    -- SEMICOLON
  ⟨none, some .binary, precFACTOR⟩,          -- SLASH
  ⟨none, some .binary, precFACTOR⟩,          -- STAR
  ⟨some .unary, none, precNONE⟩,             -- BANG
  ⟨none, some .binary, precEQUALITY⟩,        -- BANG_EQUAL
  ⟨none, some .binary, precNONE⟩,            -- EQUAL
  ⟨none, some .binary, precEQUALITY⟩,        -- EQUAL_EQUAL
  ⟨none, some .binary, precCOMPARISON⟩,      -- GREATER
  ⟨none, some .binary, precCOMPARISON⟩,      -- GREATER_EQUAL
  ⟨none, some .binary, precCOMPARISON⟩,      -- LESS
  ⟨none, none, precNONE⟩,                    -- LESS_EQUAL
  ⟨some .varRef, none, precNONE⟩,            -- IDENTIFIER
  ⟨some .strLit, none, precNONE⟩,            -- STRING
  ⟨some .number, none, precNONE⟩,            -- NUMBER
  ⟨none, some .andOp, precAND⟩,              -- AND
  ⟨none, none, precNONE⟩,                    -- CLASS
  ⟨none, none, precNONE⟩,                    -- ELSE
  ⟨some .literal, none, precNONE⟩,           -- FALSE
  ⟨none, none, precNONE⟩,                    -- FOR
  ⟨none, none, precNONE⟩,                    -- FUN
  ⟨none, none, precNONE⟩,                    -- IF
  ⟨some .literal, none, precNONE⟩,           -- NIL
  ⟨none, some .orOp, precOR⟩,                -- OR
  ⟨none, none, precNONE⟩,                    -- PRINT
  ⟨none, none, precNONE⟩,                    -- RETURN
  ⟨none, none, precNONE⟩,                    -- SUPER
  ⟨none, none, precNONE⟩,                    -- THIS
  ⟨some .literal, none, precNONE⟩,           -- TRUE
  ⟨none, none, precNONE⟩,                    -- VAR
  ⟨none, none, precNONE⟩,                    -- WHILE
  ⟨none, none, precNONE⟩,                    -- ERROR
  ⟨none, none, precNONE⟩]                    -- Eof

def getRule (t : TokenType) : ParseRule := rules.getD t.toIdx ⟨none, none, precNONE⟩

/-! ### Non-recursive parse functions -/

def digitsVal (cs : List Char) : Nat :=
  cs.foldl (fun acc c => acc * 10 + (c.toNat - 48)) 0

/-- `std::from_chars` on a scanner NUMBER lexeme (`digits` or
`digits.digits`), read exactly; the binary64 rounding of out-of-range
literals is outside the rational model and is not exercised. -/
def parseNumber (s : String) : ℚ :=
  let cs := s.toList
  let intPart := cs.takeWhile isDigitCh
  let rest := cs.dropWhile isDigitCh
  match rest with
  | '.' :: frac =>
      let fracDigits := frac.takeWhile isDigitCh
      (digitsVal intPart : ℚ) + (digitsVal fracDigits : ℚ) / ((10 : ℚ) ^ fracDigits.length)
  | _ => (digitsVal intPart : ℚ)

def numberFn (_canAssign : Bool) (st : C) : C :=
  let val := parseNumber st.parser.previous.lexme
  emitConstant (.VNum val) st

/-- `string`: strip the surrounding quotes from the lexeme. -/
def stringFn (_canAssign : Bool) (st : C) : C :=
  emitConstant (.VStr (String.mk (st.parser.previous.lexme.toList.drop 1).dropLast)) st

def literalFn (_canAssign : Bool) (st : C) : C :=
  match st.parser.previous.type with
  | .FALSE => emitByte opFalse st
  | .NIL => emitByte opNil st
  | .TRUE => emitByte opTrue st
  | _ => st

/-! ### The mutually recursive Pratt parser and statement compiler -/

mutual

def declarationF : Nat → C → C
  | 0, st => st
  | fuel + 1, st =>
      let (m, st) := matchC .VAR st
      let st := if m then varDeclarationF fuel st else statementF fuel st
      if st.parser.panicMode then synchronize st else st

def statementF : Nat → C → C
  | 0, st => st
  | fuel + 1, st =>
      let (m, st) := matchC .PRINT st
      if m then printStatementF fuel st
      else
        let (m, st) := matchC .IF st
        if m then ifStatementF fuel st
        else
          let (m, st) := matchC .WHILE st
          if m then whileStatementF fuel st
          else
            let (m, st) := matchC .LEFT_BRACE st
            if m then endScopeC (blockF fuel (beginScopeC st))
            else expressionStatementF fuel st

def varDeclarationF : Nat → C → C
  | 0, st => st
  | fuel + 1, st =>
      let (global, st) := parseVariable "Expect variable name." st
      let (m, st) := matchC .EQUAL st
      let st := if m then expressionF fuel st else emitByte opNil st
      let st := consume .SEMICOLON "Expect ';' after variable declaration." st
      defineVariable global st

def printStatementF : Nat → C → C
  | 0, st => st
  | fuel + 1, st =>
      let st := expressionF fuel st
      let st := consume .SEMICOLON "Expect ';' after value." st
      emitByte opPrint st

def ifStatementF : Nat → C → C
  | 0, st => st
  | fuel + 1, st =>
      let st := consume .LEFT_PAREN "Expect '(' after 'if'." st
      let st := expressionF fuel st
      let st := consume .RIGHT_PAREN "Expect ')' after condition." st
      let (thenJump, st) := emitJump opJumpIfFalse st
      let st := emitByte opPop st
      let st := statementF fuel st
      let (elseJump, st) := emitJump opJump st
      let st := patchJump thenJump st
      let st := emitByte opPop st
      let (m, st) := matchC .ELSE st
      let st := if m then statementF fuel st else st
      patchJump elseJump st

def whileStatementF : Nat → C → C
  | 0, st => st
  | fuel + 1, st =>
      let loopStart := st.chunk.size
      let st := consume .LEFT_PAREN "Expect '(' after 'while'." st
      let st := expressionF fuel st
      let st := consume .RIGHT_PAREN "Expect ')' after condition." st
      let (exitJump, st) := emitJump opJumpIfFalse st
      let st := emitByte opPop st
      let st := statementF fuel st
      let st := emitLoop loopStart st
      let st := patchJump exitJump st
      emitByte opPop st

def blockF : Nat → C → C
  | 0, st => st
  | fuel + 1, st =>
      if ¬checkC .RIGHT_BRACE st ∧ ¬checkC .Eof st then
        blockF fuel (declarationF fuel st)
      else consume .RIGHT_BRACE "Expect '\x7d' after block." st

def expressionStatementF : Nat → C → C
  | 0, st => st
  | fuel + 1, st =>
      let st := expressionF fuel st
      let st := consume .SEMICOLON "Expect ';' after expression." st
      emitByte opPop st

def expressionF : Nat → C → C
  | 0, st => st
  | fuel + 1, st => parsePrecedenceF fuel precASSIGNMENT st

def parsePrecedenceF : Nat → Nat → C → C
  | 0, _, st => st
  | fuel + 1, precedence, st =>
      let st := advanceC st
      let type := st.parser.previous.type
      match (getRule type).pre with
      | none => errorC "Expected expression." st
      | some preRule =>
          let canAssign := precedence ≤ precASSIGNMENT
          let st := runParseFnF fuel preRule canAssign st
          let st := parsePrecLoopF fuel precedence canAssign st
          if canAssign then
            let (m, st) := matchC .EQUAL st
            if m then errorC "Invalid assignment target." st else st
          else st

def parsePrecLoopF : Nat → Nat → Bool → C → C
  | 0, _, _, st => st
  | fuel + 1, precedence, canAssign, st =>
      if precedence ≤ (getRule st.parser.current.type).precedence then
        let st := advanceC st
        let st :=
          match (getRule st.parser.previous.type).inf with
          | some infRule => runParseFnF fuel infRule canAssign st
          | none => st  -- a null infix pointer is never reached for precedence ≥ 1
        parsePrecLoopF fuel precedence canAssign st
      else st

def runParseFnF : Nat → ParseFn → Bool → C → C
  | 0, _, _, st => st
  | fuel + 1, fn, canAssign, st =>
      match fn with
      | .grouping => groupingF fuel canAssign st
      | .unary => unaryF fuel canAssign st
      | .binary => binaryF fuel canAssign st
      | .number => numberFn canAssign st
      | .strLit => stringFn canAssign st
      | .varRef => variableF fuel canAssign st
      | .literal => literalFn canAssign st
      | .andOp => andF fuel canAssign st
      | .orOp => orF fuel canAssign st

def groupingF : Nat → Bool → C → C
  | 0, _, st => st
  | fuel + 1, _canAssign, st =>
      let st := expressionF fuel st
      consume .RIGHT_PAREN "Expect ')' after expression." st

def unaryF : Nat → Bool → C → C
  | 0, _, st => st
  | fuel + 1, _canAssign, st =>
      let operatorType := st.parser.previous.type
      let st := parsePrecedenceF fuel precUNARY st
      match operatorType with
      | .MINUS => emitByte opNegate st
      | .BANG => emitByte opNot st
      | _ => st

def binaryF : Nat → Bool → C → C
  | 0, _, st => st
  | fuel + 1, _canAssign, st =>
      let operatorType := st.parser.previous.type
      let rule := getRule operatorType
      let st := parsePrecedenceF fuel (rule.precedence + 1) st
      match operatorType with
      | .BANG_EQUAL => emitBytes2 opEqual opNot st
      | .EQUAL_EQUAL => emitByte opEqual st
      | .GREATER => emitByte opGreater st
      | .GREATER_EQUAL => emitBytes2 opLess opNot st
      | .LESS => emitByte opLess st
      | .LESS_EQUAL => emitBytes2 opGreater opNot st
      | .PLUS => emitByte opAdd st
      | .MINUS => emitByte opSubtract st
      | .STAR => emitByte opMutliply st
      | .SLASH => emitByte opDivide st
      | _ => st

def variableF : Nat → Bool → C → C
  | 0, _, st => st
  | fuel + 1, canAssign, st => namedVariableF fuel st.parser.previous canAssign st

def namedVariableF : Nat → Token → Bool → C → C
  | 0, _, _, st => st
  | fuel + 1, token, canAssign, st =>
      let (found, st) := resolveLocal token st
      let (getOp, setOp, arg, st) :=
        if found = -1 then
          let (idx, st) := identifierConstant token st
          (opGetGlobal, opSetGlobal, (idx : Int), st)
        else (opGetLocal, opSetlocal, found, st)
      if canAssign then
        let (m, st) := matchC .EQUAL st
        if m then
          let st := expressionF fuel st
          emitBytes2 setOp (byteOfInt arg) st
        else emitBytes2 getOp (byteOfInt arg) st
      else emitBytes2 getOp (byteOfInt arg) st

def andF : Nat → Bool → C → C
  | 0, _, st => st
  | fuel + 1, _canAssign, st =>
      let (endJump, st) := emitJump opJumpIfFalse st
      let st := emitByte opPop st
      let st := parsePrecedenceF fuel precAND st
      patchJump endJump st

/-- `or_`: note the source calls `emit_jump(OpCode::Pop)` (three bytes, the
result discarded) where a plain `emit_byte(OpCode::Pop)` was meant. -/
def orF : Nat → Bool → C → C
  | 0, _, st => st
  | fuel + 1, _canAssign, st =>
      let (elseJump, st) := emitJump opJumpIfFalse st
      let (endJump, st) := emitJump opJump st
      let st := patchJump elseJump st
      let (_, st) := emitJump opPop st
      let st := parsePrecedenceF fuel precOR st
      patchJump endJump st

def compileLoopF : Nat → C → C
  | 0, st => st
  | fuel + 1, st =>
      let (m, st) := matchC .Eof st
      if m then st else compileLoopF fuel (declarationF fuel st)

end

/-! ### compile() -/

def endCompiler (st : C) : C := emitReturn st

def initC (source : String) : C :=
  { parser := {}, scanner := { source := source.toList }, chunk := ⟨[], [], []⟩, cstate := {} }

/-- `Compiler::compile()`, with explicit fuel for the parsing loops. -/
def compileFuel (fuel : Nat) (source : String) : Option Chunk :=
  let st := initC source
  let st := advanceC st
  let st := compileLoopF fuel st
  let st := endCompiler st
  if st.parser.hadError then none else some st.chunk

/-! ## VM (src/include/Vm.hpp)

`InterpretResult` has Ok / CompileError / RuntimeError.  The embedding adds
`crash` for undefined behaviour and uncaught C++ exceptions (out-of-bounds
vector/array accesses, `std::bad_variant_access` from `values::as`,
`std::get<String>`, and the `throw std::runtime_error` inside `binary_op`),
and `timeout` for exhausted fuel. -/

inductive Outcome where
  | ok (out : String)
  | compileErr
  | runtimeErr (out : String)
  | crash (out : String)
  | timeout
  deriving DecidableEq, Repr

def stackSize : Nat := 256

/-- `Stack<Value, 256>`: `data` is a 256-slot array whose slots
default-construct to `Boolean false` (the variant's first alternative). -/
structure Stack256 where
  data : List Value := List.replicate stackSize (.VBool false)
  stackTop : Nat := 0
  deriving DecidableEq, Repr

/-- `push`: `data[stack_top++] = value` — no bounds check; writing slot 256
is out of bounds (`none`). -/
def stackPush (s : Stack256) (value : Value) : Option Stack256 :=
  if s.stackTop < stackSize then
    some ⟨s.data.set s.stackTop value, s.stackTop + 1⟩
  else none

/-- `pop`: `data[--stack_top]` — popping an empty stack wraps the index and
reads out of bounds (`none`). -/
def stackPop (s : Stack256) : Option (Value × Stack256) :=
  if s.stackTop = 0 then none
  else some (s.data.getD (s.stackTop - 1) default, ⟨s.data, s.stackTop - 1⟩)

/-- `at(index)`: an unchecked array read. -/
def stackAt (s : Stack256) (index : Nat) : Option Value :=
  if index < stackSize then some (s.data.getD index default) else none

def stackSet256 (s : Stack256) (index : Nat) (value : Value) : Stack256 :=
  ⟨s.data.set index value, s.stackTop⟩

/-- `peek(offset)`: `stack.at(stack.top() + offset - 1)`; with an empty
stack the size_t index wraps, an out-of-bounds read. -/
def vmPeek (s : Stack256) (offset : Nat) : Option Value :=
  if s.stackTop + offset = 0 then none
  else stackAt s (s.stackTop + offset - 1)

/-- `is_falsey`: the number 0 and `false` are falsey, everything else
(including every string) is truthy. -/
def isFalsey (value : Value) : Bool :=
  match value with
  | .VNum q => q = 0
  | .VBool b => ¬b
  | _ => false

def isNumV : Value → Bool
  | .VNum _ => true
  | _ => false

/-- `read_short`: `(data[ip-2] << 8) | data[ip-1]` on `std::byte`s; the
`std::byte` shift truncates to 8 bits, so the high byte contributes 0. -/
def readShortVal (hi lo : Nat) : Nat := ((hi <<< 8) % 256) ||| lo

/-- The `std::map<std::string, Value>` of globals, as an association list
(iteration order is never observed). -/
abbrev GlobalsT := List (String × Value)

def gContains (g : GlobalsT) (key : String) : Bool :=
  (g : List (String × Value)).any (fun p => p.1 = key)

def gGet (g : GlobalsT) (key : String) : Value :=
  (((g : List (String × Value)).find? (fun p => p.1 = key)).map Prod.snd).getD default

def gSet (g : GlobalsT) (key : String) (value : Value) : GlobalsT :=
  if gContains g key then
    (g : List (String × Value)).map (fun p => if p.1 = key then (key, value) else p)
  else (g : List (String × Value)) ++ [(key, value)]

structure VmSt where
  chunk : Chunk
  ip : Nat := 0
  stack : Stack256 := {}
  globals : GlobalsT := []
  out : String := ""
  deriving Repr

/-- `Vm::binary_op<Func>`: pops `lhs` then `rhs` and visits `(rhs, lhs)`, so
the lambda's `lhs_val` is the deeper (earlier-pushed) value and `rhs_val`
the top.  Two Numbers apply `f`; two Strings concatenate whatever `Func`
was; two Booleans or two Functions throw (`none` = crash); a type mismatch
pushes nothing and execution continues. -/
def binaryOp (f : ℚ → ℚ → Value) (st : VmSt) : Option VmSt :=
  match stackPop st.stack with
  | none => none
  | some (lhs, s1) =>
      match stackPop s1 with
      | none => none
      | some (rhs, s2) =>
          match rhs, lhs with
          | .VNum a, .VNum b =>
              (stackPush s2 (f a b)).map (fun s3 => { st with stack := s3 })
          | .VStr a, .VStr b =>
              (stackPush s2 (.VStr (a ++ b))).map (fun s3 => { st with stack := s3 })
          | .VBool _, .VBool _ => none
          | .VFun _, .VFun _ => none
          | _, _ => some { st with stack := s2 }

/-- `operator<<` on a `double` with default stream flags, for the integral
values the verified programs print; formatting a non-integral double rounds
in binary and is outside the rational model. -/
def renderNum (q : ℚ) : String :=
  if q.den = 1 ∧ q.num.natAbs < 1000000 then
    (if q.num < 0 then "-" else "") ++ toString q.num.natAbs
  else "<non-integral double>"

/-- What `std::cout << value` writes for each variant alternative (`bool`
prints with the default `noboolalpha`). -/
def renderValue : Value → String
  | .VBool b => if b then "1" else "0"
  | .VNum q => renderNum q
  | .VStr s => s
  | .VFun name => "<Fn " ++ name ++ ">"

/-- `Vm::run`, one opcode per fuel unit.  Unknown opcode bytes fall through
the switch and are skipped, exactly as in the source. -/
def runVm : Nat → VmSt → Outcome
  | 0, _ => .timeout
  | fuel + 1, st =>
      match st.chunk.data.get? st.ip with
      | none => .crash st.out
      | some instruction =>
          let st := { st with ip := st.ip + 1 }
          if instruction = opConstant then
            match st.chunk.data.get? st.ip with
            | none => .crash st.out
            | some idx =>
                let st := { st with ip := st.ip + 1 }
                match st.chunk.constants.get? idx with
                | none => .crash st.out
                | some constant =>
                    match stackPush st.stack constant with
                    | none => .crash st.out
                    | some s => runVm fuel { st with stack := s }
          else if instruction = opNil then
            -- the source pushes `values::make(double{ 0 })`: the Number 0
            match stackPush st.stack (.VNum 0) with
            | none => .crash st.out
            | some s => runVm fuel { st with stack := s }
          else if instruction = opTrue then
            match stackPush st.stack (.VBool true) with
            | none => .crash st.out
            | some s => runVm fuel { st with stack := s }
          else if instruction = opFalse then
            match stackPush st.stack (.VBool false) with
            | none => .crash st.out
            | some s => runVm fuel { st with stack := s }
          else if instruction = opPop then
            match stackPop st.stack with
            | none => .crash st.out
            | some (_, s) => runVm fuel { st with stack := s }
          else if instruction = opGetLocal then
            match st.chunk.data.get? st.ip with
            | none => .crash st.out
            | some slot =>
                let st := { st with ip := st.ip + 1 }
                match stackAt st.stack slot with
                | none => .crash st.out
                | some v =>
                    match stackPush st.stack v with
                    | none => .crash st.out
                    | some s => runVm fuel { st with stack := s }
          else if instruction = opSetlocal then
            match st.chunk.data.get? st.ip with
            | none => .crash st.out
            | some slot =>
                let st := { st with ip := st.ip + 1 }
                match vmPeek st.stack 0 with
                | none => .crash st.out
                | some v => runVm fuel { st with stack := stackSet256 st.stack slot v }
          else if instruction = opGetGlobal then
            match st.chunk.data.get? st.ip with
            | none => .crash st.out
            | some idx =>
                let st := { st with ip := st.ip + 1 }
                match st.chunk.constants.get? idx with
                | none => .crash st.out
                | some constant =>
                    match constant with
                    | .VStr name =>
                        if ¬gContains st.globals name then .runtimeErr st.out
                        else
                          match stackPush st.stack (gGet st.globals name) with
                          | none => .crash st.out
                          | some s => runVm fuel { st with stack := s }
                    | _ => .crash st.out  -- std::get<String> throws
          else if instruction = opDefineGlobal then
            match st.chunk.data.get? st.ip with
            | none => .crash st.out
            | some idx =>
                let st := { st with ip := st.ip + 1 }
                match st.chunk.constants.get? idx with
                | none => .crash st.out
                | some constant =>
                    match constant with
                    | .VStr name =>
                        match stackPop st.stack with
                        | none => .crash st.out
                        | some (v, s) =>
                            runVm fuel { st with stack := s, globals := gSet st.globals name v }
                    | _ => .crash st.out
          else if instruction = opSetGlobal then
            match st.chunk.data.get? st.ip with
            | none => .crash st.out
            | some idx =>
                let st := { st with ip := st.ip + 1 }
                match st.chunk.constants.get? idx with
                | none => .crash st.out
                | some constant =>
                    match constant with
                    | .VStr name =>
                        if ¬gContains st.globals name then .runtimeErr st.out
                        else
                          match vmPeek st.stack 0 with
                          | none => .crash st.out
                          | some v => runVm fuel { st with globals := gSet st.globals name v }
                    | _ => .crash st.out
          else if instruction = opEqual then
            match stackPop st.stack with
            | none => .crash st.out
            | some (b, s1) =>
                match stackPop s1 with
                | none => .crash st.out
                | some (a, s2) =>
                    match stackPush s2 (.VBool (a = b)) with
                    | none => .crash st.out
                    | some s => runVm fuel { st with stack := s }
          else if instruction = opGreater then
            match binaryOp (fun a b => .VBool (b < a)) st with
            | none => .crash st.out
            | some st => runVm fuel st
          else if instruction = opLess then
            match binaryOp (fun a b => .VBool (a < b)) st with
            | none => .crash st.out
            | some st => runVm fuel st
          else if instruction = opAdd then
            match binaryOp (fun a b => .VNum (a + b)) st with
            | none => .crash st.out
            | some st => runVm fuel st
          else if instruction = opSubtract then
            match binaryOp (fun a b => .VNum (a - b)) st with
            | none => .crash st.out
            | some st => runVm fuel st
          else if instruction = opMutliply then
            match binaryOp (fun a b => .VNum (a * b)) st with
            | none => .crash st.out
            | some st => runVm fuel st
          else if instruction = opDivide then
            match binaryOp (fun a b => .VNum (a / b)) st with
            | none => .crash st.out
            | some st => runVm fuel st
          else if instruction = opNot then
            match stackPop st.stack with
            | none => .crash st.out
            | some (v, s) =>
                match stackPush s (.VBool (isFalsey v)) with
                | none => .crash st.out
                | some s => runVm fuel { st with stack := s }
          else if instruction = opNegate then
            match vmPeek st.stack 0 with
            | none => .crash st.out
            | some v =>
                -- inverted check in the source: a Number operand errors out
                if isNumV v then .runtimeErr st.out
                else
                  match stackPop st.stack with
                  | none => .crash st.out
                  | some (w, s) =>
                      match w with
                      | .VNum n =>
                          match stackPush s (.VNum (-n)) with
                          | none => .crash st.out
                          | some s => runVm fuel { st with stack := s }
                      | _ => .crash st.out  -- values::as<Number> throws
          else if instruction = opPrint then
            match stackPop st.stack with
            | none => .crash st.out
            | some (v, s) =>
                let out :=
                  match v with
                  | .VFun name => st.out ++ "<Fn " ++ name ++ ">"  -- no newline
                  | _ => st.out ++ renderValue v ++ "\n"
                runVm fuel { st with stack := s, out := out }
          else if instruction = opJump then
            match st.chunk.data.get? st.ip, st.chunk.data.get? (st.ip + 1) with
            | some hi, some lo =>
                runVm fuel { st with ip := st.ip + 2 + readShortVal hi lo }
            | _, _ => .crash st.out
          else if instruction = opJumpIfFalse then
            match st.chunk.data.get? st.ip, st.chunk.data.get? (st.ip + 1) with
            | some hi, some lo =>
                let st := { st with ip := st.ip + 2 }
                match vmPeek st.stack 0 with
                | none => .crash st.out
                | some v =>
                    if isFalsey v then runVm fuel { st with ip := st.ip + readShortVal hi lo }
                    else runVm fuel st
            | _, _ => .crash st.out
          else if instruction = opLoop then
            match st.chunk.data.get? st.ip, st.chunk.data.get? (st.ip + 1) with
            | some hi, some lo =>
                let offset := readShortVal hi lo
                -- `ip -= offset` on size_t: wrapping below zero lands the
                -- next fetch far out of bounds
                if offset ≤ st.ip + 2 then runVm fuel { st with ip := st.ip + 2 - offset }
                else .crash st.out
            | _, _ => .crash st.out
          else if instruction = opReturn then .ok st.out
          else runVm fuel st

/-- `Vm::interpret(Chunk)` on a fresh VM. -/
def vmOf (ch : Chunk) : VmSt := { chunk := ch }

/-- `Vm::interpret(Compiler&)`: compile, then run on a fresh VM. -/
def interpretSource (cFuel vFuel : Nat) (source : String) : Outcome :=
  match compileFuel cFuel source with
  | none => .compileErr
  | some ch => runVm vFuel (vmOf ch)

/-! ## Chunk well-formedness (spec §8, property 1)

`constOperands` decodes the byte stream from offset 0 and collects the
operand byte of every Constant / GetGlobal / DefineGlobal / SetGlobal
instruction.  `alignedB` states that the stream splits into whole
instructions (every operand byte is present). -/

/-- Operand byte count of an opcode byte (unknown bytes take none,
mirroring the VM's fall-through on an unmatched switch). -/
def opndLen (b : Nat) : Nat :=
  if b = opConstant ∨ b = opGetLocal ∨ b = opSetlocal ∨ b = opGetGlobal ∨
     b = opDefineGlobal ∨ b = opSetGlobal then 1
  else if b = opJump ∨ b = opJumpIfFalse ∨ b = opLoop then 2
  else 0

/-- Does this opcode byte take a constant-pool index operand? -/
def isConstOpB (b : Nat) : Bool :=
  b = opConstant ∨ b = opGetGlobal ∨ b = opDefineGlobal ∨ b = opSetGlobal

def constOperands : List Nat → List Nat
  | [] => []
  | b :: rest =>
      (if isConstOpB b then rest.take 1 else []) ++ constOperands (rest.drop (opndLen b))
  termination_by l => l.length
  decreasing_by simp [List.length_drop]; omega

def alignedB : List Nat → Bool
  | [] => true
  | b :: rest => decide (opndLen b ≤ rest.length) && alignedB (rest.drop (opndLen b))
  termination_by l => l.length
  decreasing_by simp [List.length_drop]; omega

/-- The invariant carried through compilation: parallel line table, whole
instructions, and in-range constant operands. -/
def ChunkWF (ch : Chunk) : Prop :=
  ch.data.length = ch.lines.length ∧ alignedB ch.data = true ∧
  ∀ v ∈ constOperands ch.data, v < ch.constants.length

/-- What every compiler routine guarantees about its state transition:
the emitted code only grows (patches stay inside the newly emitted
region), the constant pool only grows, the scope depth is restored, and
chunk well-formedness is preserved. -/
def CExt (a b : C) : Prop :=
  (∃ t, b.chunk.data = a.chunk.data ++ t) ∧
  a.chunk.constants.length ≤ b.chunk.constants.length ∧
  b.cstate.scopeDepth = a.cstate.scopeDepth ∧
  (ChunkWF a.chunk → ChunkWF b.chunk)

/-! ## Concrete inputs used by the claim theorems -/

/-- A chunk of 257 True opcodes: the 257th push writes outside the
256-slot stack. -/
def overflowChunk : Chunk :=
  ⟨List.replicate 257 opTrue, [], List.replicate 257 0⟩

/-- A VM state whose stack is full and whose next instruction is True,
used to witness the stack-overflow behaviour. -/
def fullStackSt : VmSt :=
  { chunk := ⟨[opTrue], [], [0]⟩,
    stack := ⟨List.replicate stackSize (.VBool false), stackSize⟩ }

/-- The chunk `compile()` produces for `print 1;`. -/
def printOneChunk : Chunk :=
  ⟨[opConstant, 0, opPrint, opReturn], [.VNum 1], [0, 0, 0, 0]⟩

/-- A VM state about to execute Subtract on operands 5 (left, pushed
first) and 2 (right, on top). -/
def subFiveTwoSt : VmSt :=
  { chunk := ⟨[opSubtract], [], [0]⟩,
    stack := ⟨.VNum 5 :: .VNum 2 :: List.replicate 254 (.VBool false), 2⟩ }

/-! ## Claim theorems (except the compilation invariant, developed below) -/

set_option maxRecDepth 8192
set_option maxHeartbeats 2000000

/- Batteries marks the rational operations `@[irreducible]`; restore
default reducibility so that `decide` and `rfl` can evaluate compiled
programs (the kernel unfolds them either way). -/
attribute [local semireducible] Rat.add Rat.mul Rat.sub Rat.inv

/-- C1: for `print 1 + 2 * 3;` compilation succeeds and the VM writes
exactly `7` and a newline: `*` (FACTOR) binds tighter than `+` (TERM), so
the chunk computes 1 + (2 * 3). -/
theorem c1_print_precedence :
    interpretSource 100 100 "print 1 + 2 * 3;" = Outcome.ok "7\n" := by decide

/-- C2 counterexample: `var a; print a;` does not print `nil`; it does not
even run — the identifier `a` is scanned as the keyword `and` (the
`check_keyword` bug), so compilation fails. -/
theorem c2_counterexample :
    interpretSource 100 100 "var a; print a;" ≠ Outcome.ok "nil\n" := by decide

/-- C2 amended: `var a; print a;` is a compile error (`a` lexes as `and`);
for a variable whose name is a genuine IDENTIFIER the declaration without
initializer binds the Number 0 (the Nil opcode pushes `double{0}`; the
value model has no nil), and printing writes `0`, not `nil`. -/
theorem c2_var_without_initializer :
    interpretSource 100 100 "var a; print a;" = Outcome.compileErr ∧
    interpretSource 100 100 "var b; print b;" = Outcome.ok "0\n" := by decide

/-- C3: the Negate type check is inverted (`if (values::is<Number>(peek(0)))
return RuntimeError`): negating the Number 5 is a RuntimeError, while
negating a non-number falls into `values::as<Number>`, an uncaught
`std::bad_variant_access` (crash) — the exact opposite of the claim. -/
theorem c3_negate_inverted :
    interpretSource 100 100 "print -5;" = Outcome.runtimeErr "" ∧
    interpretSource 100 100 "print -true;" = Outcome.crash "" := by decide

/-- C4: `binary_op` performs no runtime type check: two string operands to
Subtract are concatenated and printing succeeds with Ok, and a
Number/String mismatch is a silent no-op that pops both operands and pushes
nothing (here the statement's own Pop then underflows the stack). -/
theorem c4_binary_op_no_type_error :
    interpretSource 100 100 "print \"a\" - \"b\";" = Outcome.ok "ab\n" ∧
    interpretSource 100 100 "1 - \"x\";" = Outcome.crash "" := by decide

/-- C5: `check_keyword` returns the keyword type in both branches, so any
identifier whose leading letters match a keyword arm is returned as that
keyword: `apple` and `an` both scan as AND, not IDENTIFIER. -/
theorem c5_keyword_trie_broken :
    (scanToken ⟨"apple".toList, 0, 0, 0⟩).1.type = TokenType.AND ∧
    (scanToken ⟨"apple".toList, 0, 0, 0⟩).1.lexme = "apple" ∧
    (scanToken ⟨"an".toList, 0, 0, 0⟩).1.type = TokenType.AND := by decide

/-- C6: only `>`, `>=` and `<` carry `{nullptr, binary, COMPARISON}` in the
rule table; the LESS_EQUAL entry (Compiler.hpp:780) is
`{nullptr, nullptr, NONE}`, so `<=` has no infix rule at all: `x <= y;`
fails to compile (the Pratt loop stops at precedence NONE and the `<=`
token is left for `consume(SEMICOLON)`, which errors), while `x >= y;`
compiles and emits Less, Not per the binary mapping.  The claim's own
example `a <= b` fails for the additional reason that `a` scans as the
keyword `and` (the `check_keyword` bug). -/
theorem c6_comparison_rules :
    getRule .GREATER = ⟨none, some .binary, precCOMPARISON⟩ ∧
    getRule .GREATER_EQUAL = ⟨none, some .binary, precCOMPARISON⟩ ∧
    getRule .LESS = ⟨none, some .binary, precCOMPARISON⟩ ∧
    getRule .LESS_EQUAL = ⟨none, none, precNONE⟩ ∧
    compileFuel 100 "x <= y;" = none ∧
    (compileFuel 100 "x >= y;").map Chunk.data =
      some [opGetGlobal, 0, opGetGlobal, 1, opLess, opNot, opPop, opReturn] ∧
    compileFuel 100 "a <= b;" = none := by decide

/-- C7: compiling `x or y;` shows the `or_` emission: JumpIfFalse E at
bytes 2–4 (patched to 3, i.e. to byte 8), Jump X at bytes 5–7 (patched to
5, i.e. to byte 13), then `emit_jump(Pop)` leaves THREE bytes 8–10
(Pop, 0xFF, 0xFF) before the right operand's GetGlobal at byte 11 — not the
single Pop byte the claim describes. -/
theorem c7_or_emits_three_bytes :
    (compileFuel 100 "x or y;").map Chunk.data =
      some [opGetGlobal, 0,
            opJumpIfFalse, 0, 3,
            opJump, 0, 5,
            opPop, 255, 255,
            opGetGlobal, 1,
            opPop, opReturn] := by decide

/-- C9 counterexample: a chunk of 257 True opcodes pushes onto the full
256-slot stack at the 257th; the VM does not terminate with RuntimeError —
`Stack::push` has no bounds check, and the execution ends in the modelled
out-of-bounds write (crash). -/
theorem c9_counterexample :
    runVm 300 (vmOf overflowChunk) = Outcome.crash "" ∧
    runVm 300 (vmOf overflowChunk) ≠ Outcome.runtimeErr "" := by decide

/-- C9 amended: pushing while the stack is already full is an unchecked
out-of-bounds write (`data[stack_top++]` with `stack_top = 256`), modelled
as a crash; no RuntimeError is reported. -/
theorem c9_overflow_is_oob_write (fuel : Nat) (st : VmSt)
    (hfull : st.stack.stackTop = stackSize)
    (hinstr : st.chunk.data.get? st.ip = some opTrue) :
    runVm (fuel + 1) st = Outcome.crash st.out := by
  rw [List.get?_eq_getElem?] at hinstr
  simp [runVm, hinstr, stackPush, hfull, opConstant, opNil, opTrue, stackSize]

/-- C9 witness: the amended theorem applied to a concrete full-stack state. -/
theorem c9_witness : runVm 1 fullStackSt = Outcome.crash "" :=
  c9_overflow_is_oob_write 0 fullStackSt rfl rfl

/-- C10: executing Subtract (resp. Divide) on Numbers pops the top value as
the right operand, the next as the left, and pushes left − right (resp.
left / right). -/
theorem c10_sub_div_operand_order (a b : ℚ) (st : VmSt) (fuel n : Nat)
    (htop : st.stack.stackTop = n + 2) (hle : n + 2 ≤ stackSize)
    (ha : st.stack.data.getD n default = .VNum a)
    (hb : st.stack.data.getD (n + 1) default = .VNum b) :
    (st.chunk.data.get? st.ip = some opSubtract →
      runVm (fuel + 1) st =
        runVm fuel { st with
                     ip := st.ip + 1,
                     stack := ⟨st.stack.data.set n (.VNum (a - b)), n + 1⟩ }) ∧
    (st.chunk.data.get? st.ip = some opDivide →
      runVm (fuel + 1) st =
        runVm fuel { st with
                     ip := st.ip + 1,
                     stack := ⟨st.stack.data.set n (.VNum (a / b)), n + 1⟩ }) := by
  have hne : n + 2 - 1 = n + 1 := by omega
  have hlt : n < stackSize := by omega
  simp only [List.getD, List.get?_eq_getElem?] at ha hb
  constructor <;> intro h <;> rw [List.get?_eq_getElem?] at h <;>
    simp [runVm, h, opSubtract, opDivide, opConstant, opNil, opTrue, opFalse, opPop,
          opGetLocal, opSetlocal, opGetGlobal, opDefineGlobal, opSetGlobal, opEqual,
          opGreater, opLess, opAdd, opMutliply,
          binaryOp, stackPop, stackPush, List.getD, htop, hne, ha, hb, hlt]

/-- C10 witness: `5 - 2` with 5 pushed first and 2 on top replaces them by
5 − 2 = 3. -/
theorem c10_witness :
    runVm 2 subFiveTwoSt =
      runVm 1 { subFiveTwoSt with
                ip := 1,
                stack := ⟨subFiveTwoSt.stack.data.set 0 (.VNum (5 - 2)), 1⟩ } :=
  (c10_sub_div_operand_order 5 2 subFiveTwoSt 1 0 rfl (by decide) rfl rfl).1 rfl

/-! ## The compilation invariant (C8)

Every compiler routine appends whole instructions and patches only operand
bytes of Jump/JumpIfFalse instructions it emitted itself, so
`|code| = |lines|`, instruction alignment, and in-range constant operands
are preserved from the empty chunk onwards. -/

theorem isConstOpB_opndLen {b : Nat} (h : isConstOpB b = true) : opndLen b = 1 := by
  simp [isConstOpB] at h
  rcases h with h | h | h | h <;> subst h <;> decide

theorem opndLen_two_not_const {b : Nat} (h : opndLen b = 2) : isConstOpB b = false := by
  by_contra hc
  simp only [Bool.not_eq_false] at hc
  rw [isConstOpB_opndLen hc] at h
  omega

theorem alignedB_cons (b : Nat) (rest : List Nat) :
    alignedB (b :: rest) =
      (decide (opndLen b ≤ rest.length) && alignedB (rest.drop (opndLen b))) := by
  rw [alignedB]

theorem constOperands_cons (b : Nat) (rest : List Nat) :
    constOperands (b :: rest) =
      (if isConstOpB b then rest.take 1 else []) ++ constOperands (rest.drop (opndLen b)) := by
  rw [constOperands]

theorem alignedB_append (xs : List Nat) (ys : List Nat) (h : alignedB xs = true) :
    alignedB (xs ++ ys) = alignedB ys := by
  induction xs using alignedB.induct with
  | case1 => simp
  | case2 b rest ih =>
      rw [alignedB_cons] at h
      simp only [Bool.and_eq_true, decide_eq_true_eq] at h
      obtain ⟨h1, h2⟩ := h
      rw [List.cons_append, alignedB_cons, List.length_append,
          List.drop_append_of_le_length h1]
      simp only [decide_eq_true_eq] at *
      rw [ih h2]
      simp
      omega

theorem constOperands_append (xs : List Nat) (ys : List Nat) (h : alignedB xs = true) :
    constOperands (xs ++ ys) = constOperands xs ++ constOperands ys := by
  induction xs using constOperands.induct with
  | case1 => simp [constOperands]
  | case2 b rest ih =>
      rw [alignedB_cons] at h
      simp only [Bool.and_eq_true, decide_eq_true_eq] at h
      obtain ⟨h1, h2⟩ := h
      rw [List.cons_append, constOperands_cons, constOperands_cons,
          List.drop_append_of_le_length h1, ih h2]
      by_cases hb : isConstOpB b
      · have h1' : 1 ≤ rest.length := by
          have := isConstOpB_opndLen hb
          omega
        simp [hb, List.take_append_of_le_length h1', List.append_assoc]
      · simp [hb]

theorem alignedB_append_of (xs ys : List Nat) (hx : alignedB xs = true)
    (hy : alignedB ys = true) : alignedB (xs ++ ys) = true := by
  rw [alignedB_append xs ys hx]; exact hy

theorem chunkWF_append {ch : Chunk} (bs ls : List Nat)
    (hlen : bs.length = ls.length) (hal : alignedB bs = true)
    (hco : ∀ v ∈ constOperands bs, v < ch.constants.length)
    (h : ChunkWF ch) :
    ChunkWF ⟨ch.data ++ bs, ch.constants, ch.lines ++ ls⟩ := by
  obtain ⟨h1, h2, h3⟩ := h
  refine ⟨by simp [h1, hlen], ?_, ?_⟩
  · exact alignedB_append_of _ _ h2 hal
  · intro v hv
    rw [constOperands_append _ _ h2] at hv
    rcases List.mem_append.1 hv with hv | hv
    · exact h3 v hv
    · exact hco v hv

theorem chunkWF_constants_grow {ch : Chunk} (more : List Value) (h : ChunkWF ch) :
    ChunkWF { ch with constants := ch.constants ++ more } := by
  obtain ⟨h1, h2, h3⟩ := h
  refine ⟨h1, h2, ?_⟩
  intro v hv
  have := h3 v hv
  simp only [List.length_append]
  omega

theorem set_two_after (pre : List Nat) (j a b v w : Nat) (t : List Nat) :
    ((pre ++ j :: a :: b :: t).set (pre.length + 1) v).set (pre.length + 2) w =
      pre ++ j :: v :: w :: t := by
  rw [List.set_append, if_neg (by omega)]
  have h1 : pre.length + 1 - pre.length = 1 := by omega
  rw [h1]
  show ((pre ++ j :: v :: b :: t).set (pre.length + 2) w) = _
  rw [List.set_append, if_neg (by omega)]
  have h2 : pre.length + 2 - pre.length = 2 := by omega
  rw [h2]
  rfl

theorem chunkWF_patch {pre : List Nat} {j : Nat} (a b a2 b2 : Nat) {t : List Nat}
    {cs : List Value} {ls : List Nat}
    (hal : alignedB pre = true) (hj : opndLen j = 2)
    (h : ChunkWF ⟨pre ++ j :: a :: b :: t, cs, ls⟩) :
    ChunkWF ⟨pre ++ j :: a2 :: b2 :: t, cs, ls⟩ := by
  obtain ⟨h1, h2, h3⟩ := h
  have hsplit : ∀ v w : Nat, alignedB (j :: v :: w :: t) = alignedB t := by
    intro v w
    rw [alignedB_cons, hj]
    simp
  have hops : ∀ v w : Nat, constOperands (j :: v :: w :: t) = constOperands t := by
    intro v w
    rw [constOperands_cons, hj, opndLen_two_not_const hj]
    simp
  refine ⟨by simpa using h1, ?_, ?_⟩
  · rw [alignedB_append _ _ hal, hsplit]
    rw [alignedB_append _ _ hal, hsplit] at h2
    exact h2
  · intro v hv
    apply h3 v
    rw [constOperands_append _ _ hal, hops] at hv ⊢
    exact hv

theorem CExt.refl (a : C) : CExt a a :=
  ⟨⟨[], (List.append_nil _).symm⟩, le_refl _, rfl, id⟩

theorem CExt.trans {a b c : C} (h1 : CExt a b) (h2 : CExt b c) : CExt a c := by
  obtain ⟨⟨t1, ht1⟩, hc1, hs1, hw1⟩ := h1
  obtain ⟨⟨t2, ht2⟩, hc2, hs2, hw2⟩ := h2
  exact ⟨⟨t1 ++ t2, by rw [ht2, ht1, List.append_assoc]⟩, le_trans hc1 hc2,
    hs2.trans hs1, fun h => hw2 (hw1 h)⟩

/-- Routines that only touch the parser and scanner. -/
def ParserOnly (a b : C) : Prop := b.chunk = a.chunk ∧ b.cstate = a.cstate

theorem ParserOnly.prefl (a : C) : ParserOnly a a := ⟨rfl, rfl⟩

theorem ParserOnly.ptrans {a b c : C} (h1 : ParserOnly a b) (h2 : ParserOnly b c) :
    ParserOnly a c := ⟨h2.1.trans h1.1, h2.2.trans h1.2⟩

theorem ParserOnly.cext {a b : C} (h : ParserOnly a b) : CExt a b := by
  obtain ⟨h1, h2⟩ := h
  exact ⟨⟨[], by rw [h1, List.append_nil]⟩, by rw [h1], by rw [h2], fun hw => h1 ▸ hw⟩

theorem errorAt_parserOnly (tok : Token) (msg : String) (st : C) :
    ParserOnly st (errorAt tok msg st) := by
  unfold errorAt; split <;> exact ⟨rfl, rfl⟩

theorem errorC_parserOnly (msg : String) (st : C) : ParserOnly st (errorC msg st) :=
  errorAt_parserOnly _ _ _

theorem errorAtCurrent_parserOnly (msg : String) (st : C) :
    ParserOnly st (errorAtCurrent msg st) :=
  errorAt_parserOnly _ _ _

theorem advanceLoop_parserOnly (fuel : Nat) (st : C) :
    ParserOnly st (advanceLoop fuel st) := by
  induction fuel generalizing st with
  | zero => exact ParserOnly.prefl st
  | succ fuel ih =>
      simp only [advanceLoop]
      split
      · apply ParserOnly.ptrans _ (ih _)
        apply ParserOnly.ptrans _ (errorAtCurrent_parserOnly _ _)
        exact ⟨rfl, rfl⟩
      · exact ⟨rfl, rfl⟩

theorem advanceC_parserOnly (st : C) : ParserOnly st (advanceC st) := by
  unfold advanceC
  exact ParserOnly.ptrans (⟨rfl, rfl⟩ : ParserOnly st _) (advanceLoop_parserOnly _ _)

theorem consume_parserOnly (t : TokenType) (msg : String) (st : C) :
    ParserOnly st (consume t msg st) := by
  unfold consume; split
  · exact advanceC_parserOnly st
  · exact errorAtCurrent_parserOnly _ _

theorem matchC_parserOnly (t : TokenType) (st : C) : ParserOnly st (matchC t st).2 := by
  unfold matchC; split
  · exact advanceC_parserOnly st
  · exact ParserOnly.prefl st

theorem syncLoop_parserOnly (fuel : Nat) (st : C) : ParserOnly st (syncLoop fuel st) := by
  induction fuel generalizing st with
  | zero => exact ParserOnly.prefl st
  | succ fuel ih =>
      rw [syncLoop]
      split
      · exact ParserOnly.prefl st
      split
      · exact ParserOnly.prefl st
      split
      · exact ParserOnly.prefl st
      · exact ParserOnly.ptrans (advanceC_parserOnly st) (ih _)

theorem synchronize_parserOnly (st : C) : ParserOnly st (synchronize st) := by
  unfold synchronize
  exact ParserOnly.ptrans (⟨rfl, rfl⟩ : ParserOnly st _) (syncLoop_parserOnly _ _)

theorem alignedB_single {x : Nat} (h0 : opndLen x = 0) : alignedB [x] = true := by
  rw [alignedB_cons, h0]; simp [alignedB]

theorem constOperands_single {x : Nat} (h0 : opndLen x = 0) : constOperands [x] = [] := by
  have hc : isConstOpB x = false := by
    by_contra hb
    simp only [Bool.not_eq_false] at hb
    rw [isConstOpB_opndLen hb] at h0; omega
  rw [constOperands_cons, h0, hc]; simp [constOperands]

theorem alignedB_pair {x : Nat} (y : Nat) (h1 : opndLen x = 1) : alignedB [x, y] = true := by
  rw [alignedB_cons, h1]; simp [alignedB]

theorem constOperands_pair {x : Nat} (y : Nat) (h1 : opndLen x = 1) :
    constOperands [x, y] = if isConstOpB x then [y] else [] := by
  rw [constOperands_cons, h1]
  by_cases hb : isConstOpB x <;> simp [hb, constOperands]

theorem alignedB_jump3 {x : Nat} (hx : opndLen x = 2 ∨ opndLen x = 0) :
    alignedB [x, 255, 255] = true := by
  rcases hx with hx | hx <;> rw [alignedB_cons, hx] <;> simp [alignedB, opndLen, opConstant, opGetLocal, opSetlocal, opGetGlobal, opDefineGlobal, opSetGlobal, opJump, opJumpIfFalse, opLoop]

theorem constOperands_jump3 {x : Nat} (hx : opndLen x = 2 ∨ (opndLen x = 0 ∧ isConstOpB x = false)) :
    constOperands [x, 255, 255] = [] := by
  rcases hx with hx | ⟨hx, hc⟩
  · rw [constOperands_cons, hx, opndLen_two_not_const hx]; simp [constOperands]
  · rw [constOperands_cons, hx, hc]; simp [constOperands, isConstOpB, opndLen, opConstant, opGetLocal, opSetlocal, opGetGlobal, opDefineGlobal, opSetGlobal, opJump, opJumpIfFalse, opLoop]

theorem emitByte_shape (b : Nat) (st : C) :
    (emitByte b st).chunk = ⟨st.chunk.data ++ [b % 256], st.chunk.constants,
      st.chunk.lines ++ [st.parser.previous.line]⟩ ∧
    (emitByte b st).cstate = st.cstate ∧
    (emitByte b st).parser = st.parser ∧
    (emitByte b st).scanner = st.scanner := by
  simp [emitByte, Chunk.write]

theorem emitBytes2_shape (b1 b2 : Nat) (st : C) :
    (emitBytes2 b1 b2 st).chunk = ⟨st.chunk.data ++ [b1 % 256, b2 % 256], st.chunk.constants,
      st.chunk.lines ++ [st.parser.previous.line, st.parser.previous.line]⟩ ∧
    (emitBytes2 b1 b2 st).cstate = st.cstate ∧
    (emitBytes2 b1 b2 st).parser = st.parser ∧
    (emitBytes2 b1 b2 st).scanner = st.scanner := by
  simp [emitBytes2, emitByte, Chunk.write]

theorem cext_emitSimple (b : Nat) (st : C) (h0 : opndLen (b % 256) = 0) :
    CExt st (emitByte b st) := by
  obtain ⟨hc, hcs, _, _⟩ := emitByte_shape b st
  refine ⟨⟨[b % 256], by rw [hc]⟩, by rw [hc], by rw [hcs], ?_⟩
  intro hw
  rw [hc]
  exact chunkWF_append _ _ rfl (alignedB_single h0)
    (by rw [constOperands_single h0]; intro v hv; simp at hv) hw

theorem cext_emitPair (b1 b2 : Nat) (st : C) (h1 : opndLen (b1 % 256) = 1)
    (hco : isConstOpB (b1 % 256) = true → b2 % 256 < st.chunk.constants.length) :
    CExt st (emitBytes2 b1 b2 st) := by
  obtain ⟨hc, hcs, _, _⟩ := emitBytes2_shape b1 b2 st
  refine ⟨⟨[b1 % 256, b2 % 256], by rw [hc]⟩, by rw [hc], by rw [hcs], ?_⟩
  intro hw
  rw [hc]
  refine chunkWF_append _ _ rfl (alignedB_pair _ h1) ?_ hw
  rw [constOperands_pair _ h1]
  intro v hv
  by_cases hb : isConstOpB (b1 % 256)
  · simp [hb] at hv
    subst hv
    exact hco hb
  · simp [hb] at hv

theorem emitJump_spec (b : Nat) (st : C) :
    (emitJump b st).2.chunk = ⟨st.chunk.data ++ [b % 256, 255, 255], st.chunk.constants,
      st.chunk.lines ++ [st.parser.previous.line, st.parser.previous.line,
        st.parser.previous.line]⟩ ∧
    (emitJump b st).1 = st.chunk.data.length + 1 ∧
    (emitJump b st).2.cstate = st.cstate ∧
    (emitJump b st).2.parser = st.parser ∧
    (emitJump b st).2.scanner = st.scanner := by
  simp [emitJump, emitByte, Chunk.write, Chunk.size]

theorem cext_emitJump (b : Nat) (st : C)
    (hx : opndLen (b % 256) = 2 ∨ (opndLen (b % 256) = 0 ∧ isConstOpB (b % 256) = false)) :
    CExt st (emitJump b st).2 := by
  obtain ⟨hc, _, hcs, _, _⟩ := emitJump_spec b st
  refine ⟨⟨[b % 256, 255, 255], by rw [hc]⟩, by rw [hc], by rw [hcs], ?_⟩
  intro hw
  rw [hc]
  refine chunkWF_append _ _ rfl (alignedB_jump3 ?_) ?_ hw
  · rcases hx with hx | hx
    · exact Or.inl hx
    · exact Or.inr hx.1
  · rw [constOperands_jump3 hx]
    intro v hv
    simp at hv

theorem makeConstant_spec (v : Value) (st : C) :
    (makeConstant v st).2.chunk = { st.chunk with constants := st.chunk.constants ++ [v] } ∧
    (makeConstant v st).2.cstate = st.cstate ∧
    (makeConstant v st).1 ≤ 255 ∧
    (makeConstant v st).1 < (makeConstant v st).2.chunk.constants.length := by
  have hp := errorC_parserOnly "Too many constants in one chunk."
    { st with chunk := { st.chunk with constants := st.chunk.constants ++ [v] } }
  obtain ⟨hc, hs⟩ := hp
  simp only [makeConstant, Chunk.addConstant]
  by_cases h : st.chunk.constants.length > 255 <;> simp [h, hc, hs] <;> omega

theorem cext_makeConstant (v : Value) (st : C) : CExt st (makeConstant v st).2 := by
  obtain ⟨h1, h2, _, _⟩ := makeConstant_spec v st
  refine ⟨⟨[], by rw [h1]; simp⟩, by rw [h1]; simp, by rw [h2], ?_⟩
  intro hw
  rw [h1]
  exact chunkWF_constants_grow [v] hw

theorem cext_emitConstant (v : Value) (st : C) : CExt st (emitConstant v st) := by
  unfold emitConstant
  refine CExt.trans (cext_makeConstant v st) ?_
  obtain ⟨_, _, h5, h6⟩ := makeConstant_spec v st
  refine cext_emitPair opConstant (makeConstant v st).1 (makeConstant v st).2 (by decide) ?_
  intro _
  have : (makeConstant v st).1 % 256 = (makeConstant v st).1 := Nat.mod_eq_of_lt (by omega)
  rw [this]
  exact h6

theorem byteOfInt_natCast (n : Nat) : byteOfInt (n : Int) = n % 256 := by
  simp [byteOfInt]
  omega

theorem patchJump_shape {st : C} {pre : List Nat} {j a b : Nat} {t : List Nat}
    (hdata : st.chunk.data = pre ++ j :: a :: b :: t) :
    ∃ v w, (patchJump (pre.length + 1) st).chunk =
        ⟨pre ++ j :: v :: w :: t, st.chunk.constants, st.chunk.lines⟩ ∧
      (patchJump (pre.length + 1) st).cstate = st.cstate := by
  simp only [patchJump]
  set jump := st.chunk.size - (pre.length + 1) - 2 with hj
  have h1 : ∀ s1 : C, s1 = (if jump > 65535 then errorC "Too much code to jump over." st else st) →
      s1.chunk = st.chunk ∧ s1.cstate = st.cstate := by
    intro s1 hs1
    rw [hs1]
    split
    · exact errorC_parserOnly _ _
    · exact ⟨rfl, rfl⟩
  obtain ⟨hc, hs⟩ := h1 _ rfl
  refine ⟨((jump >>> 8) &&& 255) % 256, (jump &&& 255) % 256, ?_, hs⟩
  simp only [Chunk.setByte, hc, hdata]
  rw [set_two_after]


theorem alignedB_triple2 {j : Nat} (hi lo : Nat) (hj : opndLen j = 2) :
    alignedB [j, hi, lo] = true := by
  rw [alignedB_cons, hj]; simp [alignedB]

theorem constOperands_triple2 {j : Nat} (hi lo : Nat) (hj : opndLen j = 2) :
    constOperands [j, hi, lo] = [] := by
  rw [constOperands_cons, hj, opndLen_two_not_const hj]; simp [constOperands]

theorem emitLoop_shape (loopStart : Nat) (st : C) :
    ∃ hi lo c d e, (emitLoop loopStart st).chunk =
        ⟨st.chunk.data ++ [opLoop, hi, lo], st.chunk.constants, st.chunk.lines ++ [c, d, e]⟩ ∧
      (emitLoop loopStart st).cstate = st.cstate := by
  simp only [emitLoop]
  obtain ⟨hc1, hcs1, hp1, _⟩ := emitByte_shape opLoop st
  set st1 := emitByte opLoop st with hst1
  set off := st1.chunk.size - loopStart + 2 with hoff
  set st2 := (if off > 65535 then errorC "Loop body too large." st1 else st1) with hst2
  have h2 : st2.chunk = st1.chunk ∧ st2.cstate = st1.cstate := by
    rw [hst2]
    split
    · exact errorC_parserOnly _ _
    · exact ⟨rfl, rfl⟩
  obtain ⟨hc2, hcs2⟩ := h2
  obtain ⟨hc3, hcs3, hp3, _⟩ := emitByte_shape (off >>> 8 &&& 255) st2
  set st3 := emitByte (off >>> 8 &&& 255) st2 with hst3
  obtain ⟨hc4, hcs4, _, _⟩ := emitByte_shape (off &&& 255) st3
  refine ⟨(off >>> 8 &&& 255) % 256, (off &&& 255) % 256, st.parser.previous.line,
    st2.parser.previous.line, st3.parser.previous.line, ?_, ?_⟩
  · rw [hc4, hc3, hc2, hc1]
    simp [List.append_assoc, opLoop]
  · rw [hcs4, hcs3, hcs2, hcs1]

theorem cext_emitLoop (loopStart : Nat) (st : C) : CExt st (emitLoop loopStart st) := by
  obtain ⟨hi, lo, c, d, e, hch, hcs⟩ := emitLoop_shape loopStart st
  refine ⟨⟨[opLoop, hi, lo], by rw [hch]⟩, by rw [hch], by rw [hcs], ?_⟩
  intro hw
  rw [hch]
  refine chunkWF_append _ _ rfl (alignedB_triple2 hi lo (by decide)) ?_ hw
  rw [constOperands_triple2 hi lo (by decide)]
  intro v hv
  simp at hv

theorem cext_emitReturn (st : C) : CExt st (emitReturn st) :=
  cext_emitSimple opReturn st (by decide)

/-! ### Scope and variable helper lemmas -/

theorem cleanScopeLoop_spec (n : Nat) (st : C) :
    (∃ t, (cleanScopeLoop n st).chunk.data = st.chunk.data ++ t) ∧
    (cleanScopeLoop n st).chunk.constants = st.chunk.constants ∧
    (cleanScopeLoop n st).cstate.scopeDepth = st.cstate.scopeDepth ∧
    (ChunkWF st.chunk → ChunkWF (cleanScopeLoop n st).chunk) := by
  induction n generalizing st with
  | zero => exact ⟨⟨[], by simp [cleanScopeLoop]⟩, rfl, rfl, id⟩
  | succ n ih =>
      rw [cleanScopeLoop]
      split
      · obtain ⟨hc1, hcs1, _, _⟩ := emitByte_shape opPop st
        obtain ⟨⟨t, ht⟩, h2, h3, h4⟩ := ih
          { emitByte opPop st with
            cstate := { (emitByte opPop st).cstate with
                        localCount := (emitByte opPop st).cstate.localCount - 1 } }
        refine ⟨⟨[opPop % 256] ++ t, ?_⟩, ?_, ?_, ?_⟩
        · rw [ht]
          simp only [hc1]
          simp [List.append_assoc]
        · rw [h2]; simp only [hc1]
        · rw [h3]; simp only [hcs1]
        · intro hw
          apply h4
          simp only [hc1]
          exact chunkWF_append _ _ rfl (alignedB_single (by decide))
            (by rw [constOperands_single (by decide)]; intro v hv; simp at hv) hw
      · exact ⟨⟨[], by simp⟩, rfl, rfl, id⟩

theorem endScopeC_spec (st : C) :
    (∃ t, (endScopeC st).chunk.data = st.chunk.data ++ t) ∧
    (endScopeC st).chunk.constants = st.chunk.constants ∧
    (endScopeC st).cstate.scopeDepth = st.cstate.scopeDepth - 1 ∧
    (ChunkWF st.chunk → ChunkWF (endScopeC st).chunk) := by
  unfold endScopeC
  obtain ⟨h1, h2, h3, h4⟩ := cleanScopeLoop_spec
    ({ st with cstate := st.cstate.endScope }.cstate.localCount + 1)
    { st with cstate := st.cstate.endScope }
  exact ⟨h1, h2, h3, h4⟩

theorem beginScopeC_shape (st : C) :
    (beginScopeC st).chunk = st.chunk ∧
    (beginScopeC st).cstate.scopeDepth = st.cstate.scopeDepth + 1 := by
  simp [beginScopeC, CompilerState.beginScope]

theorem resolveLocal_parserOnly (tok : Token) (st : C) :
    ParserOnly st (resolveLocal tok st).2 := by
  simp only [resolveLocal]
  split
  · exact errorC_parserOnly "Can't read local variable in its own initializer." st
  · exact ParserOnly.prefl st

theorem addLocal_scope (cs : CompilerState) (tok : Token) :
    (cs.addLocal tok).1.scopeDepth = cs.scopeDepth := by
  unfold CompilerState.addLocal
  split <;> rfl

theorem addLocalC_shape (tok : Token) (st : C) :
    (addLocalC tok st).chunk = st.chunk ∧
    (addLocalC tok st).cstate.scopeDepth = st.cstate.scopeDepth := by
  unfold addLocalC
  cases h : st.cstate.addLocal tok with
  | mk cs ok =>
      have hscope : cs.scopeDepth = st.cstate.scopeDepth := by
        have := addLocal_scope st.cstate tok
        rw [h] at this
        exact this
      simp only [h]
      split
      · obtain ⟨hc, hs⟩ := errorC_parserOnly "Too many local variables in function."
          { st with cstate := cs }
        exact ⟨hc, by rw [hs]; exact hscope⟩
      · exact ⟨rfl, hscope⟩

theorem declareVariable_shape (st : C) :
    (declareVariable st).chunk = st.chunk ∧
    (declareVariable st).cstate.scopeDepth = st.cstate.scopeDepth := by
  unfold declareVariable
  split
  · exact ⟨rfl, rfl⟩
  · split
    · obtain ⟨hc, hs⟩ :=
        errorC_parserOnly "Already a variable with this name in this scope." st
      obtain ⟨ha, hb⟩ := addLocalC_shape
        (errorC "Already a variable with this name in this scope." st).parser.previous
        (errorC "Already a variable with this name in this scope." st)
      exact ⟨ha.trans hc, hb.trans (by rw [hs])⟩
    · exact addLocalC_shape st.parser.previous st

theorem markInitialized_shape (st : C) :
    (markInitialized st).chunk = st.chunk ∧
    (markInitialized st).cstate.scopeDepth = st.cstate.scopeDepth := by
  simp [markInitialized, CompilerState.setLocalDepth]

theorem parseVariable_spec (msg : String) (st : C) :
    (parseVariable msg st).2.chunk.data = st.chunk.data ∧
    (parseVariable msg st).2.chunk.lines = st.chunk.lines ∧
    (parseVariable msg st).2.cstate.scopeDepth = st.cstate.scopeDepth ∧
    st.chunk.constants.length ≤ (parseVariable msg st).2.chunk.constants.length ∧
    (parseVariable msg st).1 ≤ 255 ∧
    ((parseVariable msg st).2.cstate.scopeDepth = 0 →
      (parseVariable msg st).1 < (parseVariable msg st).2.chunk.constants.length) ∧
    (ChunkWF st.chunk → ChunkWF (parseVariable msg st).2.chunk) := by
  simp only [parseVariable]
  obtain ⟨hc1, hs1⟩ := consume_parserOnly .IDENTIFIER msg st
  set st1 := consume .IDENTIFIER msg st with hst1
  obtain ⟨hc2, hs2⟩ := declareVariable_shape st1
  set st2 := declareVariable st1 with hst2
  split
  · next h =>
      refine ⟨by rw [hc2, hc1], by rw [hc2, hc1], by rw [hs2, hs1], by rw [hc2, hc1], by omega,
        ?_, ?_⟩
      · intro h0
        rw [h0] at h
        omega
      · intro hw
        rw [hc2, hc1]
        exact hw
  · next h =>
      obtain ⟨hc3, hs3, hv3, hlt3⟩ := makeConstant_spec (.VStr st2.parser.previous.lexme) st2
      rw [identifierConstant]
      refine ⟨by rw [hc3]; rw [hc2, hc1], by rw [hc3]; rw [hc2, hc1], ?_, ?_, hv3, fun _ => hlt3, ?_⟩
      · rw [hs3, hs2, hs1]
      · rw [hc3]
        simp only [List.length_append]
        rw [hc2, hc1]
        omega
      · intro hw
        rw [hc3, hc2, hc1]
        exact chunkWF_constants_grow _ hw

theorem defineVariable_cext (global : Nat) (st : C)
    (hco : st.cstate.scopeDepth = 0 → global % 256 < st.chunk.constants.length) :
    CExt st (defineVariable global st) := by
  unfold defineVariable
  split
  · obtain ⟨h1, h2⟩ := markInitialized_shape st
    exact ⟨⟨[], by rw [h1]; simp⟩, by rw [h1], by rw [h2], fun hw => h1 ▸ hw⟩
  · next h =>
      have h0 : st.cstate.scopeDepth = 0 := by omega
      exact cext_emitPair opDefineGlobal global st (by decide) (fun _ => hco h0)

theorem cext_numberFn (canAssign : Bool) (st : C) : CExt st (numberFn canAssign st) :=
  cext_emitConstant _ st

theorem cext_stringFn (canAssign : Bool) (st : C) : CExt st (stringFn canAssign st) :=
  cext_emitConstant _ st

theorem cext_literalFn (canAssign : Bool) (st : C) : CExt st (literalFn canAssign st) := by
  unfold literalFn
  split
  · exact cext_emitSimple opFalse st (by decide)
  · exact cext_emitSimple opNil st (by decide)
  · exact cext_emitSimple opTrue st (by decide)
  · exact CExt.refl st

theorem cext_sync_if (st : C) :
    CExt st (if st.parser.panicMode = true then synchronize st else st) := by
  split
  · exact (synchronize_parserOnly st).cext
  · exact CExt.refl st

theorem cext_emit2Simple (b1 b2 : Nat) (st : C) (h1 : opndLen (b1 % 256) = 0)
    (h2 : opndLen (b2 % 256) = 0) : CExt st (emitBytes2 b1 b2 st) :=
  CExt.trans (cext_emitSimple b1 st h1) (cext_emitSimple b2 _ h2)

theorem declaration_step (fuel : Nat)
    (ihVar : ∀ st, CExt st (varDeclarationF fuel st))
    (ihStmt : ∀ st, CExt st (statementF fuel st)) :
    ∀ st, CExt st (declarationF (fuel + 1) st) := by
  intro st
  rw [declarationF]
  cases hm : matchC .VAR st with
  | mk m st1 =>
      have h1 : ParserOnly st st1 := by
        have := matchC_parserOnly .VAR st
        rw [hm] at this
        exact this
      dsimp only
      refine CExt.trans h1.cext ?_
      have h2 : CExt st1 (if m = true then varDeclarationF fuel st1 else statementF fuel st1) := by
        split
        · exact ihVar st1
        · exact ihStmt st1
      exact CExt.trans h2 (cext_sync_if _)

theorem printStatement_step (fuel : Nat)
    (ihExpr : ∀ st, CExt st (expressionF fuel st)) :
    ∀ st, CExt st (printStatementF (fuel + 1) st) := by
  intro st
  rw [printStatementF]
  refine CExt.trans (ihExpr st) ?_
  refine CExt.trans (consume_parserOnly .SEMICOLON "Expect ';' after value." _).cext ?_
  exact cext_emitSimple opPrint _ (by decide)

theorem expressionStatement_step (fuel : Nat)
    (ihExpr : ∀ st, CExt st (expressionF fuel st)) :
    ∀ st, CExt st (expressionStatementF (fuel + 1) st) := by
  intro st
  rw [expressionStatementF]
  refine CExt.trans (ihExpr st) ?_
  refine CExt.trans (consume_parserOnly .SEMICOLON "Expect ';' after expression." _).cext ?_
  exact cext_emitSimple opPop _ (by decide)

theorem expression_step (fuel : Nat)
    (ihPP : ∀ p st, CExt st (parsePrecedenceF fuel p st)) :
    ∀ st, CExt st (expressionF (fuel + 1) st) := by
  intro st
  rw [expressionF]
  exact ihPP precASSIGNMENT st

theorem grouping_step (fuel : Nat)
    (ihExpr : ∀ st, CExt st (expressionF fuel st)) :
    ∀ ca st, CExt st (groupingF (fuel + 1) ca st) := by
  intro ca st
  rw [groupingF]
  refine CExt.trans (ihExpr st) ?_
  exact (consume_parserOnly .RIGHT_PAREN "Expect ')' after expression." _).cext

theorem unary_step (fuel : Nat)
    (ihPP : ∀ p st, CExt st (parsePrecedenceF fuel p st)) :
    ∀ ca st, CExt st (unaryF (fuel + 1) ca st) := by
  intro ca st
  rw [unaryF]
  refine CExt.trans (ihPP precUNARY st) ?_
  split
  · exact cext_emitSimple opNegate _ (by decide)
  · exact cext_emitSimple opNot _ (by decide)
  · exact CExt.refl _

theorem binary_step (fuel : Nat)
    (ihPP : ∀ p st, CExt st (parsePrecedenceF fuel p st)) :
    ∀ ca st, CExt st (binaryF (fuel + 1) ca st) := by
  intro ca st
  rw [binaryF]
  refine CExt.trans (ihPP ((getRule st.parser.previous.type).precedence + 1) st) ?_
  split
  · exact cext_emit2Simple opEqual opNot _ (by decide) (by decide)
  · exact cext_emitSimple opEqual _ (by decide)
  · exact cext_emitSimple opGreater _ (by decide)
  · exact cext_emit2Simple opLess opNot _ (by decide) (by decide)
  · exact cext_emitSimple opLess _ (by decide)
  · exact cext_emit2Simple opGreater opNot _ (by decide) (by decide)
  · exact cext_emitSimple opAdd _ (by decide)
  · exact cext_emitSimple opSubtract _ (by decide)
  · exact cext_emitSimple opMutliply _ (by decide)
  · exact cext_emitSimple opDivide _ (by decide)
  · exact CExt.refl _

theorem runParseFn_step (fuel : Nat)
    (ihGrp : ∀ ca st, CExt st (groupingF fuel ca st))
    (ihUn : ∀ ca st, CExt st (unaryF fuel ca st))
    (ihBin : ∀ ca st, CExt st (binaryF fuel ca st))
    (ihVarF : ∀ ca st, CExt st (variableF fuel ca st))
    (ihAnd : ∀ ca st, CExt st (andF fuel ca st))
    (ihOr : ∀ ca st, CExt st (orF fuel ca st)) :
    ∀ fn ca st, CExt st (runParseFnF (fuel + 1) fn ca st) := by
  intro fn ca st
  rw [runParseFnF.eq_def]
  dsimp only
  cases fn with
  | grouping => exact ihGrp ca st
  | unary => exact ihUn ca st
  | binary => exact ihBin ca st
  | number => exact cext_numberFn ca st
  | strLit => exact cext_stringFn ca st
  | varRef => exact ihVarF ca st
  | literal => exact cext_literalFn ca st
  | andOp => exact ihAnd ca st
  | orOp => exact ihOr ca st

theorem parsePrecLoop_step (fuel : Nat)
    (ihRun : ∀ fn ca st, CExt st (runParseFnF fuel fn ca st))
    (ihPPL : ∀ p ca st, CExt st (parsePrecLoopF fuel p ca st)) :
    ∀ p ca st, CExt st (parsePrecLoopF (fuel + 1) p ca st) := by
  intro p ca st
  rw [parsePrecLoopF]
  split
  · refine CExt.trans (advanceC_parserOnly st).cext ?_
    set st1 := advanceC st
    have h2 : CExt st1 (match (getRule st1.parser.previous.type).inf with
        | some infRule => runParseFnF fuel infRule ca st1
        | none => st1) := by
      split
      · exact ihRun _ ca st1
      · exact CExt.refl st1
    exact CExt.trans h2 (ihPPL p ca _)
  · exact CExt.refl st

theorem parsePrecedence_step (fuel : Nat)
    (ihRun : ∀ fn ca st, CExt st (runParseFnF fuel fn ca st))
    (ihPPL : ∀ p ca st, CExt st (parsePrecLoopF fuel p ca st)) :
    ∀ p st, CExt st (parsePrecedenceF (fuel + 1) p st) := by
  intro p st
  rw [parsePrecedenceF]
  refine CExt.trans (advanceC_parserOnly st).cext ?_
  set st1 := advanceC st
  split
  · exact (errorC_parserOnly "Expected expression." st1).cext
  · next preRule hrule =>
      dsimp only
      refine CExt.trans (ihRun preRule (decide (p ≤ precASSIGNMENT)) st1) ?_
      refine CExt.trans (ihPPL p (decide (p ≤ precASSIGNMENT)) _) ?_
      set st3 := parsePrecLoopF fuel p (decide (p ≤ precASSIGNMENT))
        (runParseFnF fuel preRule (decide (p ≤ precASSIGNMENT)) st1) with hst3
      split
      · cases hm : matchC .EQUAL st3 with
        | mk m st4 =>
            have h4 : ParserOnly st3 st4 := by
              have := matchC_parserOnly .EQUAL st3
              rw [hm] at this
              exact this
            dsimp only
            refine CExt.trans h4.cext ?_
            split
            · exact (errorC_parserOnly "Invalid assignment target." st4).cext
            · exact CExt.refl st4
      · exact CExt.refl st3

theorem block_step (fuel : Nat)
    (ihDecl : ∀ st, CExt st (declarationF fuel st))
    (ihBlock : ∀ st, CExt st (blockF fuel st)) :
    ∀ st, CExt st (blockF (fuel + 1) st) := by
  intro st
  rw [blockF]
  split
  · exact CExt.trans (ihDecl st) (ihBlock _)
  · exact (consume_parserOnly .RIGHT_BRACE "Expect '\x7d' after block." st).cext

theorem compileLoop_step (fuel : Nat)
    (ihDecl : ∀ st, CExt st (declarationF fuel st))
    (ihCL : ∀ st, CExt st (compileLoopF fuel st)) :
    ∀ st, CExt st (compileLoopF (fuel + 1) st) := by
  intro st
  rw [compileLoopF]
  cases hm : matchC .Eof st with
  | mk m st1 =>
      have h1 : ParserOnly st st1 := by
        have := matchC_parserOnly .Eof st
        rw [hm] at this
        exact this
      dsimp only
      refine CExt.trans h1.cext ?_
      split
      · exact CExt.refl st1
      · exact CExt.trans (ihDecl st1) (ihCL _)

theorem statement_step (fuel : Nat)
    (ihPrint : ∀ st, CExt st (printStatementF fuel st))
    (ihIf : ∀ st, CExt st (ifStatementF fuel st))
    (ihWhile : ∀ st, CExt st (whileStatementF fuel st))
    (ihBlock : ∀ st, CExt st (blockF fuel st))
    (ihExprSt : ∀ st, CExt st (expressionStatementF fuel st)) :
    ∀ st, CExt st (statementF (fuel + 1) st) := by
  intro st
  rw [statementF]
  cases h1 : matchC .PRINT st with
  | mk m1 st1 =>
      have p1 : ParserOnly st st1 := by
        have := matchC_parserOnly .PRINT st
        rw [h1] at this
        exact this
      dsimp only
      refine CExt.trans p1.cext ?_
      split
      · exact ihPrint st1
      · cases h2 : matchC .IF st1 with
        | mk m2 st2 =>
            have p2 : ParserOnly st1 st2 := by
              have := matchC_parserOnly .IF st1
              rw [h2] at this
              exact this
            dsimp only
            refine CExt.trans p2.cext ?_
            split
            · exact ihIf st2
            · cases h3 : matchC .WHILE st2 with
              | mk m3 st3 =>
                  have p3 : ParserOnly st2 st3 := by
                    have := matchC_parserOnly .WHILE st2
                    rw [h3] at this
                    exact this
                  dsimp only
                  refine CExt.trans p3.cext ?_
                  split
                  · exact ihWhile st3
                  · cases h4 : matchC .LEFT_BRACE st3 with
                    | mk m4 st4 =>
                        have p4 : ParserOnly st3 st4 := by
                          have := matchC_parserOnly .LEFT_BRACE st3
                          rw [h4] at this
                          exact this
                        dsimp only
                        refine CExt.trans p4.cext ?_
                        split
                        · obtain ⟨hbc, hbs⟩ := beginScopeC_shape st4
                          obtain ⟨⟨t6, ht6⟩, hm6, hs6, hw6⟩ := ihBlock (beginScopeC st4)
                          obtain ⟨⟨t7, ht7⟩, h7c, h7s, h7w⟩ :=
                            endScopeC_spec (blockF fuel (beginScopeC st4))
                          refine ⟨⟨t6 ++ t7, ?_⟩, ?_, ?_, ?_⟩
                          · rw [ht7, ht6, hbc, List.append_assoc]
                          · rw [h7c]
                            rw [hbc] at hm6
                            exact hm6
                          · rw [h7s, hs6, hbs]
                            omega
                          · intro hw
                            refine h7w (hw6 ?_)
                            rw [hbc]
                            exact hw
                        · exact ihExprSt st4

theorem varDeclaration_step (fuel : Nat)
    (ihExpr : ∀ st, CExt st (expressionF fuel st)) :
    ∀ st, CExt st (varDeclarationF (fuel + 1) st) := by
  intro st
  rw [varDeclarationF]
  cases hg : parseVariable "Expect variable name." st with
  | mk global st1 =>
      have spec := parseVariable_spec "Expect variable name." st
      rw [hg] at spec
      dsimp only at spec
      obtain ⟨sd, sl, ss, sm, s255, slt, swf⟩ := spec
      dsimp only
      have c1 : CExt st st1 := ⟨⟨[], by rw [sd]; simp⟩, sm, ss, swf⟩
      refine CExt.trans c1 ?_
      cases h2 : matchC .EQUAL st1 with
      | mk m st2 =>
          have p2 : ParserOnly st1 st2 := by
            have := matchC_parserOnly .EQUAL st1
            rw [h2] at this
            exact this
          obtain ⟨hcp2, hsp2⟩ := p2
          dsimp only
          refine CExt.trans (ParserOnly.cext ⟨hcp2, hsp2⟩) ?_
          have c3 : CExt st2 (if m = true then expressionF fuel st2 else emitByte opNil st2) := by
            split
            · exact ihExpr st2
            · exact cext_emitSimple opNil st2 (by decide)
          refine CExt.trans c3 ?_
          set st3 := if m = true then expressionF fuel st2 else emitByte opNil st2 with hst3
          obtain ⟨_, cm3, cs3, _⟩ := c3
          obtain ⟨hc4, hs4⟩ :=
            consume_parserOnly .SEMICOLON "Expect ';' after variable declaration." st3
          refine CExt.trans (ParserOnly.cext ⟨hc4, hs4⟩) ?_
          set st4 := consume .SEMICOLON "Expect ';' after variable declaration." st3 with hst4
          apply defineVariable_cext
          intro h0
          rw [hs4, cs3, hsp2] at h0
          have hg1 : global < st1.chunk.constants.length := slt (by rw [ss] at h0 ⊢ <;> exact h0)
          have hmod : global % 256 = global := Nat.mod_eq_of_lt (by omega)
          rw [hmod, hc4]
          calc global < st1.chunk.constants.length := hg1
            _ = st2.chunk.constants.length := by rw [hcp2]
            _ ≤ st3.chunk.constants.length := cm3

theorem namedVariable_step (fuel : Nat)
    (ihExpr : ∀ st, CExt st (expressionF fuel st)) :
    ∀ tok ca st, CExt st (namedVariableF (fuel + 1) tok ca st) := by
  intro tok ca st
  rw [namedVariableF]
  cases hr : resolveLocal tok st with
  | mk found st1 =>
      have p1 : ParserOnly st st1 := by
        have := resolveLocal_parserOnly tok st
        rw [hr] at this
        exact this
      dsimp only
      refine CExt.trans p1.cext ?_
      by_cases hf : found = -1
      · simp only [if_pos hf]
        cases hi : identifierConstant tok st1 with
        | mk idx st2 =>
            have spec := makeConstant_spec (.VStr tok.lexme) st1
            rw [show makeConstant (Value.VStr tok.lexme) st1 = (idx, st2) from hi] at spec
            dsimp only at spec
            obtain ⟨sch, scs, s255, slt⟩ := spec
            have c2 : CExt st1 st2 := by
              refine ⟨⟨[], by rw [sch]; simp⟩, by rw [sch]; simp, by rw [scs], ?_⟩
              intro hw
              rw [sch]
              exact chunkWF_constants_grow _ hw
            have hidx : byteOfInt (idx : Int) % 256 < st2.chunk.constants.length := by
              rw [byteOfInt_natCast]
              have h1 : idx % 256 = idx := Nat.mod_eq_of_lt (by omega)
              rw [h1, h1]
              exact slt
            dsimp only
            refine CExt.trans c2 ?_
            split
            · cases hm : matchC .EQUAL st2 with
              | mk m st3 =>
                  have p3 : ParserOnly st2 st3 := by
                    have := matchC_parserOnly .EQUAL st2
                    rw [hm] at this
                    exact this
                  obtain ⟨hc3, hs3⟩ := p3
                  dsimp only
                  refine CExt.trans (ParserOnly.cext ⟨hc3, hs3⟩) ?_
                  split
                  · refine CExt.trans (ihExpr st3) ?_
                    obtain ⟨⟨t4, ht4⟩, hm4, _, _⟩ := ihExpr st3
                    apply cext_emitPair opSetGlobal _ _ (by decide)
                    intro _
                    calc byteOfInt (idx : Int) % 256 < st2.chunk.constants.length := hidx
                      _ = st3.chunk.constants.length := by rw [hc3]
                      _ ≤ _ := hm4
                  · apply cext_emitPair opGetGlobal _ _ (by decide)
                    intro _
                    rw [hc3]
                    exact hidx
            · apply cext_emitPair opGetGlobal _ _ (by decide)
              intro _
              exact hidx
      · simp only [if_neg hf]
        split
        · cases hm : matchC .EQUAL st1 with
          | mk m st2 =>
              have p2 : ParserOnly st1 st2 := by
                have := matchC_parserOnly .EQUAL st1
                rw [hm] at this
                exact this
              dsimp only
              refine CExt.trans p2.cext ?_
              split
              · refine CExt.trans (ihExpr st2) ?_
                exact cext_emitPair opSetlocal _ _ (by decide) (fun hc => absurd hc (by decide))
              · exact cext_emitPair opGetLocal _ _ (by decide) (fun hc => absurd hc (by decide))
        · exact cext_emitPair opGetLocal _ _ (by decide) (fun hc => absurd hc (by decide))

theorem variable_step (fuel : Nat)
    (ihNV : ∀ tok ca st, CExt st (namedVariableF fuel tok ca st)) :
    ∀ ca st, CExt st (variableF (fuel + 1) ca st) := by
  intro ca st
  rw [variableF]
  exact ihNV st.parser.previous ca st

theorem and_step (fuel : Nat)
    (ihPP : ∀ p st, CExt st (parsePrecedenceF fuel p st)) :
    ∀ ca st, CExt st (andF (fuel + 1) ca st) := by
  intro ca st
  rw [andF]
  cases hj : emitJump opJumpIfFalse st with
  | mk endJump st1 =>
      have sp := emitJump_spec opJumpIfFalse st
      rw [hj] at sp
      dsimp only at sp
      obtain ⟨sch1, sjmp, scs1, spar1, _⟩ := sp
      dsimp only
      obtain ⟨hc2, hcs2, hp2, _⟩ := emitByte_shape opPop st1
      set st2 := emitByte opPop st1 with hst2
      obtain ⟨⟨t3, ht3⟩, hm3, hs3, hw3⟩ := ihPP precAND st2
      set st3 := parsePrecedenceF fuel precAND st2 with hst3
      have hdata : st3.chunk.data = st.chunk.data ++
          (opJumpIfFalse % 256) :: 255 :: 255 :: ((opPop % 256) :: t3) := by
        rw [ht3, hc2, sch1]
        simp [List.append_assoc]
      rw [sjmp]
      obtain ⟨v, w, hch4, hcs4⟩ := patchJump_shape hdata
      have e1 : st1.chunk.constants = st.chunk.constants := by rw [sch1]
      have e2 : st2.chunk.constants = st1.chunk.constants := by rw [hc2]
      refine ⟨⟨(opJumpIfFalse % 256) :: v :: w :: (opPop % 256) :: t3, by rw [hch4]⟩, ?_, ?_, ?_⟩
      · rw [hch4]
        calc st.chunk.constants.length = st2.chunk.constants.length := by rw [e2, e1]
          _ ≤ st3.chunk.constants.length := hm3
      · rw [hcs4, hs3, hcs2, scs1]
      · intro hw
        have hw1 : ChunkWF st1.chunk := by
          rw [sch1]
          refine chunkWF_append _ _ rfl (alignedB_jump3 (Or.inl (by decide))) ?_ hw
          rw [constOperands_jump3 (Or.inl (by decide))]
          intro x hx
          simp at hx
        have hw2 : ChunkWF st2.chunk := by
          rw [hc2]
          refine chunkWF_append _ _ rfl (alignedB_single (by decide)) ?_ hw1
          rw [constOperands_single (by decide)]
          intro x hx
          simp at hx
        have hw3' : ChunkWF st3.chunk := hw3 hw2
        have hwp : ChunkWF ⟨st.chunk.data ++ (opJumpIfFalse % 256) :: 255 :: 255 ::
            ((opPop % 256) :: t3), st3.chunk.constants, st3.chunk.lines⟩ := by
          rw [← hdata]
          exact hw3'
        have hres := chunkWF_patch 255 255 v w hw.2.1 (by decide) hwp
        rw [hch4]
        exact hres

theorem or_step (fuel : Nat)
    (ihPP : ∀ p st, CExt st (parsePrecedenceF fuel p st)) :
    ∀ ca st, CExt st (orF (fuel + 1) ca st) := by
  intro ca st
  rw [orF]
  cases hj1 : emitJump opJumpIfFalse st with
  | mk elseJump st1 =>
      have sp1 := emitJump_spec opJumpIfFalse st
      rw [hj1] at sp1
      dsimp only at sp1
      obtain ⟨sch1, sjmp1, scs1, _, _⟩ := sp1
      dsimp only
      cases hj2 : emitJump opJump st1 with
      | mk endJump st2 =>
          have sp2 := emitJump_spec opJump st1
          rw [hj2] at sp2
          dsimp only at sp2
          obtain ⟨sch2, sjmp2, scs2, _, _⟩ := sp2
          dsimp only
          have hdata2 : st2.chunk.data = st.chunk.data ++ (opJumpIfFalse % 256) :: 255 ::
              255 :: [opJump % 256, 255, 255] := by
            rw [sch2, sch1]
            simp [List.append_assoc]
          rw [sjmp1]
          obtain ⟨v, w, hch3, hcs3⟩ := patchJump_shape hdata2
          set st3 := patchJump (st.chunk.data.length + 1) st2 with hst3
          cases hj4 : emitJump opPop st3 with
          | mk dead st4 =>
              have sp4 := emitJump_spec opPop st3
              rw [hj4] at sp4
              dsimp only at sp4
              obtain ⟨sch4, _, scs4, _, _⟩ := sp4
              dsimp only
              obtain ⟨⟨t5, ht5⟩, hm5, hs5, hw5⟩ := ihPP precOR st4
              set st5 := parsePrecedenceF fuel precOR st4 with hst5
              set pre2 := st.chunk.data ++ [opJumpIfFalse % 256, v, w] with hpre2
              have hdata5 : st5.chunk.data = pre2 ++ (opJump % 256) :: 255 :: 255 ::
                  ((opPop % 256) :: 255 :: 255 :: t5) := by
                rw [ht5, sch4]
                rw [show st3.chunk.data = st.chunk.data ++ (opJumpIfFalse % 256) :: v :: w ::
                  [opJump % 256, 255, 255] from by rw [hch3]]
                simp [hpre2, List.append_assoc]
              have hEnd : endJump = pre2.length + 1 := by
                rw [sjmp2]
                have : st1.chunk.data = st.chunk.data ++ [opJumpIfFalse % 256, 255, 255] := by
                  rw [sch1]
                rw [this, hpre2]
                simp
              rw [hEnd]
              obtain ⟨v2, w2, hch6, hcs6⟩ := patchJump_shape hdata5
              have e1 : st1.chunk.constants = st.chunk.constants := by rw [sch1]
              have e2 : st2.chunk.constants = st1.chunk.constants := by rw [sch2]
              have e3 : st3.chunk.constants = st2.chunk.constants := by rw [hch3]
              have e4 : st4.chunk.constants = st3.chunk.constants := by rw [sch4]
              refine ⟨⟨(opJumpIfFalse % 256) :: v :: w :: (opJump % 256) :: v2 :: w2 ::
                (opPop % 256) :: 255 :: 255 :: t5, ?_⟩, ?_, ?_, ?_⟩
              · rw [hch6]
                simp [hpre2, List.append_assoc]
              · rw [hch6]
                calc st.chunk.constants.length = st4.chunk.constants.length := by
                      rw [e4, e3, e2, e1]
                  _ ≤ st5.chunk.constants.length := hm5
              · rw [hcs6, hs5, scs4, hcs3, scs2, scs1]
              · intro hw
                have hw1 : ChunkWF st1.chunk := by
                  rw [sch1]
                  refine chunkWF_append _ _ rfl (alignedB_jump3 (Or.inl (by decide))) ?_ hw
                  rw [constOperands_jump3 (Or.inl (by decide))]
                  intro x hx
                  simp at hx
                have hw2 : ChunkWF st2.chunk := by
                  rw [sch2]
                  refine chunkWF_append _ _ rfl (alignedB_jump3 (Or.inl (by decide))) ?_ hw1
                  rw [constOperands_jump3 (Or.inl (by decide))]
                  intro x hx
                  simp at hx
                have hwp2 : ChunkWF ⟨st.chunk.data ++ (opJumpIfFalse % 256) :: 255 :: 255 ::
                    [opJump % 256, 255, 255], st2.chunk.constants, st2.chunk.lines⟩ := by
                  rw [← hdata2]
                  exact hw2
                have hw3 : ChunkWF st3.chunk := by
                  rw [hch3]
                  exact chunkWF_patch 255 255 v w hw.2.1 (by decide) hwp2
                have hw4 : ChunkWF st4.chunk := by
                  rw [sch4]
                  refine chunkWF_append _ _ rfl (alignedB_jump3 (Or.inr (by decide))) ?_ hw3
                  rw [constOperands_jump3 (Or.inr (by decide))]
                  intro x hx
                  simp at hx
                have hw5' : ChunkWF st5.chunk := hw5 hw4
                have hal2 : alignedB pre2 = true := by
                  rw [hpre2]
                  exact alignedB_append_of _ _ hw.2.1 (alignedB_triple2 v w (by decide))
                have hwp5 : ChunkWF ⟨pre2 ++ (opJump % 256) :: 255 :: 255 ::
                    ((opPop % 256) :: 255 :: 255 :: t5), st5.chunk.constants,
                    st5.chunk.lines⟩ := by
                  rw [← hdata5]
                  exact hw5'
                have hres := chunkWF_patch 255 255 v2 w2 hal2 (by decide) hwp5
                rw [hch6]
                exact hres

theorem alignedB_cons0 {x : Nat} (h : opndLen x = 0) {t : List Nat}
    (ht : alignedB t = true) : alignedB (x :: t) = true := by
  rw [alignedB_cons, h]
  simp [ht]

theorem while_step (fuel : Nat)
    (ihExpr : ∀ st, CExt st (expressionF fuel st))
    (ihStmt : ∀ st, CExt st (statementF fuel st)) :
    ∀ st, CExt st (whileStatementF (fuel + 1) st) := by
  intro st
  rw [whileStatementF]
  obtain ⟨hc1, hs1⟩ := consume_parserOnly .LEFT_PAREN "Expect '(' after 'while'." st
  set st1 := consume .LEFT_PAREN "Expect '(' after 'while'." st with hst1
  obtain ⟨⟨t2, ht2⟩, hm2, hsc2, hw2⟩ := ihExpr st1
  set st2 := expressionF fuel st1 with hst2
  obtain ⟨hc3, hs3⟩ := consume_parserOnly .RIGHT_PAREN "Expect ')' after condition." st2
  set st3 := consume .RIGHT_PAREN "Expect ')' after condition." st2 with hst3
  cases hj : emitJump opJumpIfFalse st3 with
  | mk exitJump st4 =>
      have sp := emitJump_spec opJumpIfFalse st3
      rw [hj] at sp
      dsimp only at sp
      obtain ⟨sch4, sjmp, scs4, _, _⟩ := sp
      dsimp only
      obtain ⟨hc5, hcs5, _, _⟩ := emitByte_shape opPop st4
      set st5 := emitByte opPop st4 with hst5
      obtain ⟨⟨t6, ht6⟩, hm6, hs6, hw6⟩ := ihStmt st5
      set st6 := statementF fuel st5 with hst6
      obtain ⟨hi, lo, la, lb, lc, hch7, hcs7⟩ := emitLoop_shape st.chunk.size st6
      set st7 := emitLoop st.chunk.size st6 with hst7
      have hdata7 : st7.chunk.data = st3.chunk.data ++ (opJumpIfFalse % 256) :: 255 :: 255 ::
          ((opPop % 256) :: (t6 ++ [opLoop, hi, lo])) := by
        rw [hch7, ht6, hc5, sch4]
        simp [List.append_assoc]
      rw [sjmp]
      obtain ⟨v, w, hch8, hcs8⟩ := patchJump_shape hdata7
      set st8 := patchJump (st3.chunk.data.length + 1) st7 with hst8
      have e4 : st4.chunk.constants = st3.chunk.constants := by rw [sch4]
      have e5 : st5.chunk.constants = st4.chunk.constants := by rw [hc5]
      have e7 : st7.chunk.constants = st6.chunk.constants := by rw [hch7]
      have e8 : st8.chunk.constants = st7.chunk.constants := by rw [hch8]
      obtain ⟨hc9, hcs9, _, _⟩ := emitByte_shape opPop st8
      refine ⟨⟨t2 ++ ((opJumpIfFalse % 256) :: v :: w ::
        ((opPop % 256) :: (t6 ++ [opLoop, hi, lo]))) ++ [opPop % 256], ?_⟩, ?_, ?_, ?_⟩
      · rw [hc9, hch8]
        rw [show st3.chunk.data = st.chunk.data ++ t2 from by rw [hc3, ht2, hc1]]
        simp [List.append_assoc]
      · rw [hc9]
        calc st.chunk.constants.length = st1.chunk.constants.length := by rw [hc1]
          _ ≤ st2.chunk.constants.length := hm2
          _ = st5.chunk.constants.length := by rw [e5, e4, hc3]
          _ ≤ st6.chunk.constants.length := hm6
          _ = st8.chunk.constants.length := by rw [e8, e7]
      · rw [hcs9, hcs8, hcs7, hs6, hcs5, scs4, hs3, hsc2, hs1]
      · intro hw
        have hw1 : ChunkWF st1.chunk := by rw [hc1]; exact hw
        have hw2' : ChunkWF st2.chunk := hw2 hw1
        have hw3 : ChunkWF st3.chunk := by rw [hc3]; exact hw2'
        have hw4 : ChunkWF st4.chunk := by
          rw [sch4]
          refine chunkWF_append _ _ rfl (alignedB_jump3 (Or.inl (by decide))) ?_ hw3
          rw [constOperands_jump3 (Or.inl (by decide))]
          intro x hx
          simp at hx
        have hw5 : ChunkWF st5.chunk := by
          rw [hc5]
          refine chunkWF_append _ _ rfl (alignedB_single (by decide)) ?_ hw4
          rw [constOperands_single (by decide)]
          intro x hx
          simp at hx
        have hw6' : ChunkWF st6.chunk := hw6 hw5
        have hw7 : ChunkWF st7.chunk := by
          rw [hch7]
          refine chunkWF_append _ _ rfl (alignedB_triple2 hi lo (by decide)) ?_ hw6'
          rw [constOperands_triple2 hi lo (by decide)]
          intro x hx
          simp at hx
        have hwp : ChunkWF ⟨st3.chunk.data ++ (opJumpIfFalse % 256) :: 255 :: 255 ::
            ((opPop % 256) :: (t6 ++ [opLoop, hi, lo])), st7.chunk.constants,
            st7.chunk.lines⟩ := by
          rw [← hdata7]
          exact hw7
        have hw8 : ChunkWF st8.chunk := by
          rw [hch8]
          exact chunkWF_patch 255 255 v w hw3.2.1 (by decide) hwp
        rw [hc9]
        refine chunkWF_append _ _ rfl (alignedB_single (by decide)) ?_ hw8
        rw [constOperands_single (by decide)]
        intro x hx
        simp at hx

theorem alignedB_triple_cons {j : Nat} (v w : Nat) (hj : opndLen j = 2) {t : List Nat}
    (ht : alignedB t = true) : alignedB (j :: v :: w :: t) = true := by
  rw [alignedB_cons, hj]
  simp [ht]

theorem if_step (fuel : Nat)
    (ihExpr : ∀ st, CExt st (expressionF fuel st))
    (ihStmt : ∀ st, CExt st (statementF fuel st)) :
    ∀ st, CExt st (ifStatementF (fuel + 1) st) := by
  intro st
  rw [ifStatementF]
  obtain ⟨hc1, hs1⟩ := consume_parserOnly .LEFT_PAREN "Expect '(' after 'if'." st
  set st1 := consume .LEFT_PAREN "Expect '(' after 'if'." st with hst1
  obtain ⟨⟨t2, ht2⟩, hm2, hsc2, hw2⟩ := ihExpr st1
  set st2 := expressionF fuel st1 with hst2
  obtain ⟨hc3, hs3⟩ := consume_parserOnly .RIGHT_PAREN "Expect ')' after condition." st2
  set st3 := consume .RIGHT_PAREN "Expect ')' after condition." st2 with hst3
  cases hj1 : emitJump opJumpIfFalse st3 with
  | mk thenJump st4 =>
      have sp4 := emitJump_spec opJumpIfFalse st3
      rw [hj1] at sp4
      dsimp only at sp4
      obtain ⟨sch4, sjmp4, scs4, _, _⟩ := sp4
      dsimp only
      obtain ⟨hc5, hcs5, _, _⟩ := emitByte_shape opPop st4
      set st5 := emitByte opPop st4 with hst5
      obtain ⟨⟨t6, ht6⟩, hm6, hs6, hw6⟩ := ihStmt st5
      set st6 := statementF fuel st5 with hst6
      cases hj2 : emitJump opJump st6 with
      | mk elseJump st7 =>
          have sp7 := emitJump_spec opJump st6
          rw [hj2] at sp7
          dsimp only at sp7
          obtain ⟨sch7, sjmp7, scs7, _, _⟩ := sp7
          dsimp only
          have hdata7 : st7.chunk.data = st3.chunk.data ++ (opJumpIfFalse % 256) :: 255 ::
              255 :: ((opPop % 256) :: (t6 ++ [opJump % 256, 255, 255])) := by
            rw [sch7, ht6, hc5, sch4]
            simp [List.append_assoc]
          rw [sjmp4]
          obtain ⟨v, w, hch8, hcs8⟩ := patchJump_shape hdata7
          set st8 := patchJump (st3.chunk.data.length + 1) st7 with hst8
          obtain ⟨hc9, hcs9, _, _⟩ := emitByte_shape opPop st8
          set st9 := emitByte opPop st8 with hst9
          cases hm : matchC .ELSE st9 with
          | mk m st10 =>
              have p10 : ParserOnly st9 st10 := by
                have := matchC_parserOnly .ELSE st9
                rw [hm] at this
                exact this
              obtain ⟨hc10, hs10⟩ := p10
              dsimp only
              have c11 : CExt st10 (if m = true then statementF fuel st10 else st10) := by
                split
                · exact ihStmt st10
                · exact CExt.refl st10
              obtain ⟨⟨t11, ht11⟩, hm11, hs11, hw11⟩ := c11
              set st11 := if m = true then statementF fuel st10 else st10 with hst11
              set pre2 := st3.chunk.data ++ (opJumpIfFalse % 256) :: v :: w ::
                ((opPop % 256) :: t6) with hpre2
              have hdata11 : st11.chunk.data = pre2 ++ (opJump % 256) :: 255 :: 255 ::
                  ((opPop % 256) :: t11) := by
                rw [ht11, hc10, hc9]
                rw [show st8.chunk.data = st3.chunk.data ++ (opJumpIfFalse % 256) :: v :: w ::
                  ((opPop % 256) :: (t6 ++ [opJump % 256, 255, 255])) from by rw [hch8]]
                simp [hpre2, List.append_assoc]
              have hEnd : elseJump = pre2.length + 1 := by
                rw [sjmp7]
                have hd6 : st6.chunk.data = (st3.chunk.data ++ [opJumpIfFalse % 256, 255, 255]
                    ++ [opPop % 256]) ++ t6 := by
                  rw [ht6, hc5, sch4]
                rw [hd6, hpre2]
                simp
              rw [hEnd]
              obtain ⟨v2, w2, hch12, hcs12⟩ := patchJump_shape hdata11
              have e4 : st4.chunk.constants = st3.chunk.constants := by rw [sch4]
              have e5 : st5.chunk.constants = st4.chunk.constants := by rw [hc5]
              have e7 : st7.chunk.constants = st6.chunk.constants := by rw [sch7]
              have e8 : st8.chunk.constants = st7.chunk.constants := by rw [hch8]
              have e9 : st9.chunk.constants = st8.chunk.constants := by rw [hc9]
              refine ⟨⟨t2 ++ ((opJumpIfFalse % 256) :: v :: w :: ((opPop % 256) :: (t6 ++
                ((opJump % 256) :: v2 :: w2 :: ((opPop % 256) :: t11))))), ?_⟩, ?_, ?_, ?_⟩
              · rw [hch12, hpre2]
                rw [show st3.chunk.data = st.chunk.data ++ t2 from by rw [hc3, ht2, hc1]]
                simp [List.append_assoc]
              · rw [hch12]
                calc st.chunk.constants.length = st1.chunk.constants.length := by rw [hc1]
                  _ ≤ st2.chunk.constants.length := hm2
                  _ = st5.chunk.constants.length := by rw [e5, e4, hc3]
                  _ ≤ st6.chunk.constants.length := hm6
                  _ = st10.chunk.constants.length := by rw [hc10, e9, e8, e7]
                  _ ≤ st11.chunk.constants.length := hm11
              · rw [hcs12, hs11, hs10, hcs9, hcs8, scs7, hs6, hcs5, scs4, hs3, hsc2, hs1]
              · intro hw
                have hw1 : ChunkWF st1.chunk := by rw [hc1]; exact hw
                have hw2' : ChunkWF st2.chunk := hw2 hw1
                have hw3 : ChunkWF st3.chunk := by rw [hc3]; exact hw2'
                have hw4 : ChunkWF st4.chunk := by
                  rw [sch4]
                  refine chunkWF_append _ _ rfl (alignedB_jump3 (Or.inl (by decide))) ?_ hw3
                  rw [constOperands_jump3 (Or.inl (by decide))]
                  intro x hx
                  simp at hx
                have hw5 : ChunkWF st5.chunk := by
                  rw [hc5]
                  refine chunkWF_append _ _ rfl (alignedB_single (by decide)) ?_ hw4
                  rw [constOperands_single (by decide)]
                  intro x hx
                  simp at hx
                have hw6' : ChunkWF st6.chunk := hw6 hw5
                have hw7 : ChunkWF st7.chunk := by
                  rw [sch7]
                  refine chunkWF_append _ _ rfl (alignedB_jump3 (Or.inl (by decide))) ?_ hw6'
                  rw [constOperands_jump3 (Or.inl (by decide))]
                  intro x hx
                  simp at hx
                have hwp7 : ChunkWF ⟨st3.chunk.data ++ (opJumpIfFalse % 256) :: 255 :: 255 ::
                    ((opPop % 256) :: (t6 ++ [opJump % 256, 255, 255])),
                    st7.chunk.constants, st7.chunk.lines⟩ := by
                  rw [← hdata7]
                  exact hw7
                have hw8 : ChunkWF st8.chunk := by
                  rw [hch8]
                  exact chunkWF_patch 255 255 v w hw3.2.1 (by decide) hwp7
                have hw9 : ChunkWF st9.chunk := by
                  rw [hc9]
                  refine chunkWF_append _ _ rfl (alignedB_single (by decide)) ?_ hw8
                  rw [constOperands_single (by decide)]
                  intro x hx
                  simp at hx
                have hw10 : ChunkWF st10.chunk := by rw [hc10]; exact hw9
                have hw11' : ChunkWF st11.chunk := hw11 hw10
                have halt6 : alignedB t6 = true := by
                  have h := hw6'.2.1
                  rw [ht6] at h
                  rw [alignedB_append _ _ hw5.2.1] at h
                  exact h
                have hal2 : alignedB pre2 = true := by
                  rw [hpre2]
                  refine alignedB_append_of _ _ hw3.2.1 ?_
                  exact alignedB_triple_cons v w (by decide)
                    (alignedB_cons0 (by decide) halt6)
                have hwp11 : ChunkWF ⟨pre2 ++ (opJump % 256) :: 255 :: 255 ::
                    ((opPop % 256) :: t11), st11.chunk.constants, st11.chunk.lines⟩ := by
                  rw [← hdata11]
                  exact hw11'
                have hres := chunkWF_patch 255 255 v2 w2 hal2 (by decide) hwp11
                rw [hch12]
                exact hres

theorem compilerCExt : ∀ fuel : Nat,
    (∀ st, CExt st (declarationF fuel st)) ∧
    (∀ st, CExt st (statementF fuel st)) ∧
    (∀ st, CExt st (varDeclarationF fuel st)) ∧
    (∀ st, CExt st (printStatementF fuel st)) ∧
    (∀ st, CExt st (ifStatementF fuel st)) ∧
    (∀ st, CExt st (whileStatementF fuel st)) ∧
    (∀ st, CExt st (blockF fuel st)) ∧
    (∀ st, CExt st (expressionStatementF fuel st)) ∧
    (∀ st, CExt st (expressionF fuel st)) ∧
    (∀ p st, CExt st (parsePrecedenceF fuel p st)) ∧
    (∀ p ca st, CExt st (parsePrecLoopF fuel p ca st)) ∧
    (∀ fn ca st, CExt st (runParseFnF fuel fn ca st)) ∧
    (∀ ca st, CExt st (groupingF fuel ca st)) ∧
    (∀ ca st, CExt st (unaryF fuel ca st)) ∧
    (∀ ca st, CExt st (binaryF fuel ca st)) ∧
    (∀ ca st, CExt st (variableF fuel ca st)) ∧
    (∀ tok ca st, CExt st (namedVariableF fuel tok ca st)) ∧
    (∀ ca st, CExt st (andF fuel ca st)) ∧
    (∀ ca st, CExt st (orF fuel ca st)) ∧
    (∀ st, CExt st (compileLoopF fuel st)) := by
  intro fuel
  induction fuel with
  | zero =>
      refine ⟨?_, ?_, ?_, ?_, ?_, ?_, ?_, ?_, ?_, ?_, ?_, ?_, ?_, ?_, ?_, ?_, ?_, ?_, ?_, ?_⟩
      · intro st; rw [declarationF]; exact CExt.refl st
      · intro st; rw [statementF]; exact CExt.refl st
      · intro st; rw [varDeclarationF]; exact CExt.refl st
      · intro st; rw [printStatementF]; exact CExt.refl st
      · intro st; rw [ifStatementF]; exact CExt.refl st
      · intro st; rw [whileStatementF]; exact CExt.refl st
      · intro st; rw [blockF]; exact CExt.refl st
      · intro st; rw [expressionStatementF]; exact CExt.refl st
      · intro st; rw [expressionF]; exact CExt.refl st
      · intro p st; rw [parsePrecedenceF]; exact CExt.refl st
      · intro p ca st; rw [parsePrecLoopF]; exact CExt.refl st
      · intro fn ca st; rw [runParseFnF.eq_def]; exact CExt.refl st
      · intro ca st; rw [groupingF]; exact CExt.refl st
      · intro ca st; rw [unaryF]; exact CExt.refl st
      · intro ca st; rw [binaryF]; exact CExt.refl st
      · intro ca st; rw [variableF]; exact CExt.refl st
      · intro tok ca st; rw [namedVariableF]; exact CExt.refl st
      · intro ca st; rw [andF]; exact CExt.refl st
      · intro ca st; rw [orF]; exact CExt.refl st
      · intro st; rw [compileLoopF]; exact CExt.refl st
  | succ n ih =>
      obtain ⟨iDecl, iStmt, iVar, iPrint, iIf, iWhile, iBlock, iExprSt, iExpr, iPP, iPPL,
        iRun, iGrp, iUn, iBin, iVarF, iNV, iAnd, iOr, iCL⟩ := ih
      exact ⟨declaration_step n iVar iStmt,
        statement_step n iPrint iIf iWhile iBlock iExprSt,
        varDeclaration_step n iExpr,
        printStatement_step n iExpr,
        if_step n iExpr iStmt,
        while_step n iExpr iStmt,
        block_step n iDecl iBlock,
        expressionStatement_step n iExpr,
        expression_step n iPP,
        parsePrecedence_step n iRun iPPL,
        parsePrecLoop_step n iRun iPPL,
        runParseFn_step n iGrp iUn iBin iVarF iAnd iOr,
        grouping_step n iExpr,
        unary_step n iPP,
        binary_step n iPP,
        variable_step n iNV,
        namedVariable_step n iExpr,
        and_step n iPP,
        or_step n iPP,
        compileLoop_step n iDecl iCL⟩

/-- C8: for every program on which `compile()` returns a chunk (no compile
error), the returned chunk has as many line records as code bytes, and every
constant-index operand byte (the operand of Constant, GetGlobal, SetGlobal,
DefineGlobal) is strictly less than the number of constants in the pool. -/
theorem c8_compiled_chunk_invariants (fuel : Nat) (source : String) (ch : Chunk)
    (h : compileFuel fuel source = some ch) :
    ch.data.length = ch.lines.length ∧
    ∀ v ∈ constOperands ch.data, v < ch.constants.length := by
  rw [compileFuel] at h
  obtain ⟨-, -, -, -, -, -, -, -, -, -, -, -, -, -, -, -, -, -, -, hCL⟩ := compilerCExt fuel
  have hc1 : (advanceC (initC source)).chunk = (initC source).chunk :=
    (advanceC_parserOnly (initC source)).1
  have hwf1 : ChunkWF (advanceC (initC source)).chunk := by
    rw [hc1]
    refine ⟨rfl, by simp [initC, alignedB], ?_⟩
    intro v hv
    simp [initC, constOperands] at hv
  have hwf2 : ChunkWF (compileLoopF fuel (advanceC (initC source))).chunk :=
    (hCL (advanceC (initC source))).2.2.2 hwf1
  have hwf3 : ChunkWF (endCompiler (compileLoopF fuel (advanceC (initC source)))).chunk := by
    rw [endCompiler]
    exact (cext_emitReturn _).2.2.2 hwf2
  split at h
  · exact absurd h (by simp)
  · cases h
    exact ⟨hwf3.1, hwf3.2.2⟩

theorem c8_witness :
    compileFuel 64 "print 1;" = some printOneChunk ∧
    (printOneChunk.data.length = printOneChunk.lines.length ∧
     ∀ v ∈ constOperands printOneChunk.data, v < printOneChunk.constants.length) := by
  refine ⟨by rfl, c8_compiled_chunk_invariants 64 "print 1;" printOneChunk (by rfl)⟩
